import Mathlib

/-!
# Verification of the AwesomeGIC bank ledger core (`bank_system.py`)

Shallow embedding of the ledger-and-accrual core: `Transaction`, `InterestRule`,
`BankAccount` and `BankSystem` with the operations `create_transaction`,
`add_interest_rule` and `calculate_interest`, translated from the Python source.

Modelling conventions:
* Python `datetime.date` values are `Date` records (year/month/day); comparison
  and day arithmetic go through the proleptic-Gregorian ordinal `Date.ord`
  (the value of `date.toordinal()`), which agrees with Python's component-wise
  comparison on the valid dates the program constructs.
* Python `Decimal` values are `ℚ`; `Decimal.quantize(Decimal(s "0.01"), ROUND_HALF_UP)`
  is `quantize2` (round half away from zero at 2 fractional digits, Python's
  `ROUND_HALF_UP`).  A decimal-string argument that `Decimal(...)` fails to turn
  into a finite quantizable value is modelled as `none`; a parsed finite value
  as `some q`.
* `datetime.strptime(date_str, "%Y%m%d")` is `parseDate`, reproducing the
  CPython `_strptime` regex semantics: `%Y` is exactly four digits, `%m`
  matches `1[0-2]|0[1-9]|[1-9]` and `%d` matches `3[01]|[12]\d|0[1-9]|[1-9]`
  (alternatives tried in order, with backtracking), the whole input must be
  consumed, and the resulting triple must be a real calendar date with
  year ≥ 1.  `\d` in a CPython `str` regex matches every Unicode `Nd`
  decimal digit (and `int()` maps each to its decimal value), so the `%Y`
  characters and the second character of the `[12]\d` day alternative accept
  any `Nd` digit, while the bracketed literal ranges are ASCII-only; the
  `Nd` set (Unicode 14.0, CPython 3.11) is `ndDigitBases`.
* Python dicts are insertion-ordered association lists; `list.sort(key=...)` /
  `sorted(...)` are a stable insertion sort on the date ordinal.
-/

/-! ## Calendar arithmetic -/
/-- Gregorian leap-year test (as in Python's `calendar.isleap`). -/
def isLeapYear (y : ℕ) : Bool :=
  (y % 4 == 0 && y % 100 != 0) || (y % 400 == 0)

/-- Number of days of month `m` of year `y` (`calendar.monthrange(y, m).1`). -/
def daysInMonth (y m : ℕ) : ℕ :=
  if m = 2 then (if isLeapYear y then 29 else 28)
  else if m = 4 ∨ m = 6 ∨ m = 9 ∨ m = 11 then 30
  else 31

/-- Days before month `m` in a non-leap year (index 0 unused). -/
def monthOffset (m : ℕ) : ℕ :=
  [0, 0, 31, 59, 90, 120, 151, 181, 212, 243, 273, 304, 334].getD m 0

/-- A `datetime.date` value: year, month, day. -/
structure Date where
  year : ℕ
  month : ℕ
  day : ℕ

deriving DecidableEq

/-- The proleptic-Gregorian ordinal of a date (Python's `date.toordinal()`,
with `0001-01-01` mapped to 1).  Date comparison and `timedelta` day
arithmetic in the source are ordinal comparison and arithmetic. -/
def Date.ord (dt : Date) : ℕ :=
  365 * (dt.year - 1) + (dt.year - 1) / 4 - (dt.year - 1) / 100 + (dt.year - 1) / 400
    + monthOffset dt.month
    + (if 2 < dt.month ∧ isLeapYear dt.year then 1 else 0)
    + dt.day

instance : LE Date := ⟨fun a b => a.ord ≤ b.ord⟩

instance : LT Date := ⟨fun a b => a.ord < b.ord⟩

instance (a b : Date) : Decidable (a ≤ b) :=
  inferInstanceAs (Decidable (a.ord ≤ b.ord))

instance (a b : Date) : Decidable (a < b) :=
  inferInstanceAs (Decidable (a.ord < b.ord))

/-- The dates `datetime.date` can actually hold: real calendar dates with
`MINYEAR ≤ year ≤ MAXYEAR`. -/
def Date.validDate (dt : Date) : Prop :=
  1 ≤ dt.year ∧ dt.year ≤ 9999 ∧ 1 ≤ dt.month ∧ dt.month ≤ 12 ∧
    1 ≤ dt.day ∧ dt.day ≤ daysInMonth dt.year dt.month

instance (dt : Date) : Decidable dt.validDate := by
  unfold Date.validDate; infer_instance

/-! ## Decimal quantization -/
/-- Round a rational to an integer, half away from zero
(Python `ROUND_HALF_UP` at exponent 0). -/
def roundHalfUpInt (q : ℚ) : ℤ :=
  if 0 ≤ q then ⌊q + 1 / 2⌋ else -⌊-q + 1 / 2⌋

/-- `Decimal(x).quantize(Decimal(s "0.01"), rounding=ROUND_HALF_UP)`. -/
def quantize2 (q : ℚ) : ℚ :=
  (roundHalfUpInt (q * 100) : ℚ) / 100

/-! ## CPython `strptime("%Y%m%d")` date parsing -/
/-- Numeric value of an ASCII digit. -/
def digitVal (c : Char) : ℕ := c.toNat - '0'.toNat

/-- First code points of the 66 contiguous runs of ten Unicode `Nd`
(decimal digit) code points, per Unicode 14.0 — the Unicode version of the
CPython 3.11 whose `strptime` is modelled.  In a CPython `str` regex, `\d`
matches exactly these characters, and `int()` maps each to its decimal
value, its offset within its run. -/
def ndDigitBases : List ℕ :=
  [0x30, 0x660, 0x6F0, 0x7C0, 0x966, 0x9E6, 0xA66, 0xAE6, 0xB66, 0xBE6,
   0xC66, 0xCE6, 0xD66, 0xDE6, 0xE50, 0xED0, 0xF20, 0x1040, 0x1090, 0x17E0,
   0x1810, 0x1946, 0x19D0, 0x1A80, 0x1A90, 0x1B50, 0x1BB0, 0x1C40, 0x1C50,
   0xA620, 0xA8D0, 0xA900, 0xA9D0, 0xA9F0, 0xAA50, 0xABF0, 0xFF10, 0x104A0,
   0x10D30, 0x11066, 0x110F0, 0x11136, 0x111D0, 0x112F0, 0x11450, 0x114D0,
   0x11650, 0x116C0, 0x11730, 0x118E0, 0x11950, 0x11C50, 0x11D50, 0x11DA0,
   0x16A60, 0x16AC0, 0x16B50, 0x1D7CE, 0x1D7D8, 0x1D7E2, 0x1D7EC, 0x1D7F6,
   0x1E140, 0x1E2F0, 0x1E950, 0x1FBF0]

/-- `\d` of a CPython `str` regex: membership in the Unicode `Nd` category. -/
def isDecimalDigit (c : Char) : Bool :=
  ndDigitBases.any (fun b => decide (b ≤ c.toNat) && decide (c.toNat ≤ b + 9))

/-- The decimal value `int()` assigns to an `Nd` character (0 elsewhere). -/
def decDigitVal (c : Char) : ℕ :=
  match ndDigitBases.find? (fun b => decide (b ≤ c.toNat) && decide (c.toNat ≤ b + 9)) with
  | some b => c.toNat - b
  | none => 0

/-- The `%m` pattern `1[0-2]|0[1-9]|[1-9]`: candidate (month, rest) pairs in
regex alternation order (two-digit alternatives first). -/
def matchMonth : List Char → List (ℕ × List Char)
  | c1 :: c2 :: rest =>
      (if c1 = '1' ∧ '0' ≤ c2 ∧ c2 ≤ '2' then [(10 + digitVal c2, rest)] else [])
      ++ (if c1 = '0' ∧ '1' ≤ c2 ∧ c2 ≤ '9' then [(digitVal c2, rest)] else [])
      ++ (if '1' ≤ c1 ∧ c1 ≤ '9' then [(digitVal c1, c2 :: rest)] else [])
  | [c1] => if '1' ≤ c1 ∧ c1 ≤ '9' then [(digitVal c1, [])] else []
  | [] => []

/-- The `%d` pattern `3[01]|[12]\d|0[1-9]|[1-9]`: first alternative that
matches wins (nothing after the day group can force further backtracking).
The `\d` of the second alternative matches any Unicode `Nd` digit; the
bracketed ranges are ASCII literals. -/
def matchDay : List Char → Option (ℕ × List Char)
  | c1 :: c2 :: rest =>
      if c1 = '3' ∧ ('0' = c2 ∨ c2 = '1') then some (30 + digitVal c2, rest)
      else if ('1' ≤ c1 ∧ c1 ≤ '2') ∧ isDecimalDigit c2 then
        some (10 * digitVal c1 + decDigitVal c2, rest)
      else if c1 = '0' ∧ '1' ≤ c2 ∧ c2 ≤ '9' then some (digitVal c2, rest)
      else if '1' ≤ c1 ∧ c1 ≤ '9' then some (digitVal c1, c2 :: rest)
      else none
  | [c1] => if '1' ≤ c1 ∧ c1 ≤ '9' then some (digitVal c1, []) else none
  | [] => none

/-- Month group followed by day group, with regex backtracking across the
month alternatives. -/
def matchMD (cs : List Char) : Option (ℕ × ℕ × List Char) :=
  (matchMonth cs).findSome? fun p =>
    (matchDay p.2).map fun q => (p.1, q.1, q.2)

/-- `datetime.strptime(date_str, "%Y%m%d").date()`: four `\d` (Unicode `Nd`)
digits of year, the month and day groups, no unconverted trailing data, and
the triple must be a constructible `datetime.date` (year ≥ 1, day within the
month). -/
def parseDate (str : String) : Option Date :=
  match str.data with
  | c1 :: c2 :: c3 :: c4 :: rest =>
    if isDecimalDigit c1 ∧ isDecimalDigit c2 ∧ isDecimalDigit c3 ∧ isDecimalDigit c4 then
      let y := 1000 * decDigitVal c1 + 100 * decDigitVal c2 + 10 * decDigitVal c3
        + decDigitVal c4
      match matchMD rest with
      | some (m, d, rest2) =>
          if rest2 = [] ∧ 1 ≤ y ∧ d ≤ daysInMonth y m then some ⟨y, m, d⟩ else none
      | none => none
    else none
  | _ => none

/-! ## Records -/
/-- ASCII upper-casing of one character (`str.upper` on the tokens the
program handles). -/
def upperChar (c : Char) : Char :=
  if 'a' ≤ c ∧ c ≤ 'z' then Char.ofNat (c.toNat - 32) else c

/-- `str.upper()` (ASCII). -/
def strUpper (s : String) : String := ⟨s.data.map upperChar⟩

/-- A posted transaction (`Transaction.__init__` upper-cases the type and
quantizes the amount; see `mkTransaction`). -/
structure Transaction where
  date : Date
  account : String
  transaction_type : String
  amount : ℚ
  txn_id : Option String

deriving DecidableEq

/-- `Transaction(date, account, transaction_type, amount, txn_id)`. -/
def mkTransaction (date : Date) (account transaction_type : String) (amount : ℚ)
    (txn_id : Option String) : Transaction :=
  ⟨date, account, strUpper transaction_type, quantize2 amount, txn_id⟩

/-- An interest rule (`InterestRule.__init__` quantizes the rate;
see `mkInterestRule`). -/
structure InterestRule where
  date : Date
  rule_id : String
  rate : ℚ

deriving DecidableEq

/-- `InterestRule(date, rule_id, rate)`. -/
def mkInterestRule (date : Date) (rule_id : String) (rate : ℚ) : InterestRule :=
  ⟨date, rule_id, quantize2 rate⟩

/-- A `BankAccount`: id and insertion-ordered transaction list. -/
structure BankAccount where
  account_id : String
  transactions : List Transaction

deriving DecidableEq

/-- `BankAccount.get_balance_at_date`: signed sum of all transactions dated
at or before `target_date`. -/
def get_balance_at_date (a : BankAccount) (target_date : Date) : ℚ :=
  a.transactions.foldl
    (fun balance t =>
      if t.date ≤ target_date then
        if t.transaction_type = "D" then balance + t.amount
        else if t.transaction_type = "W" then balance - t.amount
        else if t.transaction_type = "I" then balance + t.amount
        else balance
      else balance)
    0

/-- `BankAccount.can_withdraw`. -/
def can_withdraw (a : BankAccount) (amount : ℚ) (date : Date) : Prop :=
  amount ≤ get_balance_at_date a date

instance (a : BankAccount) (amount : ℚ) (date : Date) :
    Decidable (can_withdraw a amount date) :=
  inferInstanceAs (Decidable (amount ≤ get_balance_at_date a date))

/-- The whole `BankSystem` state: insertion-ordered account map, rule list,
and per-date transaction-ID counters. -/
structure BankSystem where
  accounts : List (String × BankAccount)
  interest_rules : List InterestRule
  transaction_counters : List (String × ℕ)

deriving DecidableEq

def emptySystem : BankSystem := ⟨[], [], []⟩

/-! ## Association-list helpers (Python dict update semantics) -/
/-- Replace the value of an existing key in place, or append the binding
(Python `dict.__setitem__`). -/
def updateAssoc {β : Type} : List (String × β) → String → β → List (String × β)
  | [], k, v => [(k, v)]
  | (k', v') :: rest, k, v =>
      if k' = k then (k', v) :: rest else (k', v') :: updateAssoc rest k v

/-! ## Stable sort by date ordinal (Python `list.sort(key=lambda x: x.date)`) -/
/-- Insert into a sorted list, after any element with an equal key
(preserving the stability of Python's sort). -/
def insertSorted {α : Type} (key : α → ℕ) (x : α) : List α → List α
  | [] => [x]
  | y :: ys => if key x < key y then x :: y :: ys else y :: insertSorted key x ys

/-- Stable insertion sort on an ℕ-valued key. -/
def sortByKey {α : Type} (key : α → ℕ) (l : List α) : List α :=
  l.foldl (fun acc x => insertSorted key x acc) []

/-! ## `BankSystem.create_transaction` -/
inductive PostErr where
  | invalidDate
  | invalidType
  | invalidAmount
  | nonPositiveAmount
  | insufficientFunds

deriving DecidableEq

/-- `f"{date_str}-{count:02d}"`. -/
def formatTxnId (date_str : String) (count : ℕ) : String :=
  date_str ++ "-" ++ (if count < 10 then "0" ++ toString count else toString count)

/-- `BankSystem.create_transaction(date_str, account_id, txn_type, amount_str)`.
`amount_str = none` models a string `Decimal(...)`/`quantize` rejects.
Note that the lazy account creation (`if account_id not in self.accounts`)
happens before the withdrawal check and persists when that check fails. -/
def create_transaction (s : BankSystem) (date_str account_id txn_type : String)
    (amount_str : Option ℚ) : Except PostErr String × BankSystem :=
  match parseDate date_str with
  | none => (.error .invalidDate, s)
  | some date =>
    if ¬ (strUpper txn_type = "D" ∨ strUpper txn_type = "W") then (.error .invalidType, s)
    else
      match amount_str with
      | none => (.error .invalidAmount, s)
      | some raw =>
        let amount := quantize2 raw
        if amount ≤ 0 then (.error .nonPositiveAmount, s)
        else
          let s1 :=
            if (s.accounts.lookup account_id).isSome then s
            else { s with accounts := s.accounts ++ [(account_id, ⟨account_id, []⟩)] }
          let account := (s1.accounts.lookup account_id).getD ⟨account_id, []⟩
          if strUpper txn_type = "W" ∧ ¬ can_withdraw account amount date then
            (.error .insufficientFunds, s1)
          else
            let cnt := (s1.transaction_counters.lookup date_str).getD 0 + 1
            let txn := mkTransaction date account_id txn_type amount
              (some (formatTxnId date_str cnt))
            let account1 := { account with transactions := account.transactions ++ [txn] }
            let s2 :=
              { s1 with
                transaction_counters := updateAssoc s1.transaction_counters date_str cnt,
                accounts := updateAssoc s1.accounts account_id account1 }
            (.ok account_id, s2)

/-! ## `BankSystem.add_interest_rule` -/
inductive RuleErr where
  | invalidDate
  | invalidRate
  | rateOutOfRange

deriving DecidableEq

/-- `BankSystem.add_interest_rule(date_str, rule_id, rate_str)`. -/
def add_interest_rule (s : BankSystem) (date_str rule_id : String)
    (rate_str : Option ℚ) : Except RuleErr Unit × BankSystem :=
  match parseDate date_str with
  | none => (.error .invalidDate, s)
  | some date =>
    match rate_str with
    | none => (.error .invalidRate, s)
    | some raw =>
      let rate := quantize2 raw
      if rate ≤ 0 ∨ 100 ≤ rate then (.error .rateOutOfRange, s)
      else
        let kept := s.interest_rules.filter (fun r => decide (r.date ≠ date))
        let rules := sortByKey (fun r => r.date.ord)
          (kept ++ [mkInterestRule date rule_id rate])
        (.ok (), { s with interest_rules := rules })

/-! ## `BankSystem.calculate_interest` -/
/-- First day of the month (`datetime(year, month, 1).date()`). -/
def startOfMonth (year month : ℕ) : Date := ⟨year, month, 1⟩

/-- Last day of the month (`datetime(year, month, last_day).date()`). -/
def endOfMonth (year month : ℕ) : Date := ⟨year, month, daysInMonth year month⟩

/-- `set.add` with Python's first-insertion order. -/
def insertUnique (l : List Date) (d : Date) : List Date :=
  if d ∈ l then l else l ++ [d]

/-- The sorted, deduplicated breakpoint dates: transaction dates within the
month, rule dates within the month, and the month start. -/
def breakpointDates (account_txns : List Transaction) (rules : List InterestRule)
    (startDate endDate : Date) : List Date :=
  let withTxns := (account_txns.filter
      (fun t => decide (startDate ≤ t.date ∧ t.date ≤ endDate))).foldl
    (fun l t => insertUnique l t.date) []
  let withRules := (rules.filter
      (fun r => decide (startDate ≤ r.date ∧ r.date ≤ endDate))).foldl
    (fun l r => insertUnique l r.date) withTxns
  sortByKey Date.ord (insertUnique withRules startDate)

/-- The applicable rule's rate at date `d`: the last rule in list order with
`rule.date <= d` (the loop at lines 185–188 keeps overwriting). -/
def applicableRate (rules : List InterestRule) (d : Date) : Option ℚ :=
  rules.foldl (fun acc r => if r.date ≤ d then some r.rate else acc) none

/-- The accumulation loop of `calculate_interest` (lines 167–193) over the
sorted breakpoint list: skip the month-end as a period start; the period of
breakpoint `d` runs to the next breakpoint (exclusive), or to the day after
the month end; each period contributes
`balance * rate / 100 * num_days / 365`, unrounded. -/
def rawInterest (a : BankAccount) (rules : List InterestRule) (endDate : Date) :
    List Date → ℚ
  | [] => 0
  | d :: rest =>
    let tail := rawInterest a rules endDate rest
    if d = endDate then tail
    else
      let nextOrd := match rest with
        | [] => endDate.ord + 1
        | nd :: _ => nd.ord
      let num_days : ℕ := nextOrd - d.ord
      match applicableRate rules d with
      | none => tail
      | some rate => get_balance_at_date a d * rate / 100 * (num_days : ℚ) / 365 + tail

/-- The final `total_interest` of `calculate_interest`: the unrounded
accumulated sum, quantized once. -/
def interestTotal (s : BankSystem) (account : BankAccount) (year month : ℕ) : ℚ :=
  quantize2 (rawInterest account s.interest_rules (endOfMonth year month)
    (breakpointDates
      (account.transactions.filter (fun t => decide (t.date ≤ endOfMonth year month)))
      s.interest_rules (startOfMonth year month) (endOfMonth year month)))

/-- `BankSystem.calculate_interest(account_id, year, month)`.
Returns the Python return value (`none` = Python `None`) and the new state. -/
def calculate_interest (s : BankSystem) (account_id : String) (year month : ℕ) :
    Option ℚ × BankSystem :=
  match s.accounts.lookup account_id with
  | none => (none, s)
  | some account =>
    let endDate := endOfMonth year month
    let account_txns := account.transactions.filter (fun t => decide (t.date ≤ endDate))
    if account_txns.isEmpty then (none, s)
    else
      let interest_txns := account_txns.filter (fun t =>
        decide (t.transaction_type = "I" ∧ t.date.year = year ∧ t.date.month = month))
      if ¬ interest_txns.isEmpty then (none, s)
      else
        let total := interestTotal s account year month
        if 0 < total then
          let itxn := mkTransaction endDate account_id "I" total none
          let account2 := { account with transactions := account.transactions ++ [itxn] }
          (some total,
            { s with accounts := updateAssoc s.accounts account_id account2 })
        else (some 0, s)

/-! ## Operation sequences -/
/-- The mutating core operations.  `print_monthly_statement` mutates state
only through its embedded `calculate_interest` call, so it is covered by
`accrue`. -/
inductive Op where
  | post (date_str account_id txn_type : String) (amount_str : Option ℚ)
  | rule (date_str rule_id : String) (rate_str : Option ℚ)
  | accrue (account_id : String) (year month : ℕ)

/-- Apply one operation to the state.  For `accrue`, out-of-range year or
month makes `calendar.monthrange` / `datetime` raise before any mutation,
so the state is returned unchanged. -/
def applyOp (s : BankSystem) : Op → BankSystem
  | .post d a t m => (create_transaction s d a t m).2
  | .rule d r rt => (add_interest_rule s d r rt).2
  | .accrue a y m =>
      if 1 ≤ y ∧ y ≤ 9999 ∧ 1 ≤ m ∧ m ≤ 12 then (calculate_interest s a y m).2 else s

/-- The state after running a sequence of operations from a fresh system. -/
def run (ops : List Op) : BankSystem := ops.foldl applyOp emptySystem

/-- The transaction list of an account (empty if the account is unknown). -/
def accountTxns (s : BankSystem) (account_id : String) : List Transaction :=
  ((s.accounts.lookup account_id).getD ⟨account_id, []⟩).transactions

/-- The balance of an account as of a date, as seen through the system. -/
def sysBalance (s : BankSystem) (account_id : String) (date : Date) : ℚ :=
  get_balance_at_date ((s.accounts.lookup account_id).getD ⟨account_id, []⟩) date

/-- The Interest transactions of an account dated in a given month. -/
def interestTxnsIn (a : BankAccount) (year month : ℕ) : List Transaction :=
  a.transactions.filter (fun t =>
    decide (t.transaction_type = "I" ∧ t.date.year = year ∧ t.date.month = month))

deriving instance DecidableEq for Except

set_option maxRecDepth 10000

/-! ## Concrete scenario states -/
/-- Deposit 1000 on 2023-01-01 into a fresh system (C2 scenario). -/
def c2s1 : BankSystem := (create_transaction emptySystem "20230101" "AC" "D" (some 1000)).2

/-- … then deposit 500 on 2023-01-15. -/
def c2s2 : BankSystem := (create_transaction c2s1 "20230115" "AC" "D" (some 500)).2

/-- … then withdraw 200 on 2023-01-20. -/
def c2s3 : BankSystem := (create_transaction c2s2 "20230120" "AC" "W" (some 200)).2

/-- … then add a 5% rule effective 2023-01-01. -/
def c2s4 : BankSystem := (add_interest_rule c2s3 "20230101" "RULE03" (some 5)).2

/-- Deposit 100 on 2023-01-10 into a fresh system (C10 scenario). -/
def c10s1 : BankSystem := (create_transaction emptySystem "20230110" "AY" "D" (some 100)).2

/-- … then withdraw the full 100 on 2023-01-20. -/
def c10s2 : BankSystem := (create_transaction c10s1 "20230120" "AY" "W" (some 100)).2

/-- … then withdraw another 100 backdated to 2023-01-15. -/
def c10s3 : BankSystem := (create_transaction c10s2 "20230115" "AY" "W" (some 100)).2

/-- State with a single deposit of 100 for account A5 (C5 witness base). -/
def c5base : BankSystem := (create_transaction emptySystem "20230101" "A5" "D" (some 100)).2

/-! ## The spec's day-weighted period sum (for the refinement claim) -/
/-- The spec's period list (§4.5): each breakpoint except the month end opens
a period; the period's length in days runs to the next breakpoint
(exclusive), or one past the month end for the final period. -/
def specPeriods (endDate : Date) : List Date → List (Date × ℕ)
  | [] => []
  | d :: rest =>
    (if d = endDate then [] else
      [(d, (match rest with | [] => endDate.ord + 1 | nd :: _ => nd.ord) - d.ord)])
      ++ specPeriods endDate rest

/-- The spec's unrounded per-period term:
`balance * rate / 100 * periodDays / 365`, zero when no rule is in force. -/
def specPeriodTerm (a : BankAccount) (rules : List InterestRule) (p : Date × ℕ) : ℚ :=
  match applicableRate rules p.1 with
  | none => 0
  | some rate => get_balance_at_date a p.1 * rate / 100 * (p.2 : ℚ) / 365

/-- The spec's unrounded month total: the plain sum of the period terms. -/
def specRawInterest (a : BankAccount) (rules : List InterestRule) (endDate : Date)
    (bps : List Date) : ℚ :=
  ((specPeriods endDate bps).map (specPeriodTerm a rules)).sum

/-- The spec's final month total: the unrounded sum quantized once. -/
def specMonthTotal (s : BankSystem) (account : BankAccount) (year month : ℕ) : ℚ :=
  quantize2 (specRawInterest account s.interest_rules (endOfMonth year month)
    (breakpointDates
      (account.transactions.filter (fun t => decide (t.date ≤ endOfMonth year month)))
      s.interest_rules (startOfMonth year month) (endOfMonth year month)))

/-- A 1000 deposit on 2024-02-01 with a 5% rule from the same date
(leap-year February scenario for the C3 witness). -/
def c3base : BankSystem :=
  (add_interest_rule
    (create_transaction emptySystem "20240201" "A3" "D" (some 1000)).2
    "20240201" "R3" (some 5)).2

/-- Invariant of every reachable `BankSystem` state: transaction dates are
real calendar dates, each account holds at most one Interest transaction per
calendar month, stored Interest transactions have positive amounts, and rule
effective dates are pairwise distinct. -/
structure SysInv (s : BankSystem) : Prop where
  dates_valid : ∀ p ∈ s.accounts, ∀ t ∈ p.2.transactions, t.date.validDate
  interest_once : ∀ p ∈ s.accounts, ∀ year month : ℕ,
    (interestTxnsIn p.2 year month).length ≤ 1
  interest_pos : ∀ p ∈ s.accounts, ∀ t ∈ p.2.transactions,
    t.transaction_type = "I" → 0 < t.amount
  rules_nodup : (s.interest_rules.map (fun r => r.date)).Nodup

/-! ## C4: at most one Interest transaction per account per month -/
/-- Number of Interest transactions of an account dated in a given month. -/
def interestCount (s : BankSystem) (acc : String) (year month : ℕ) : ℕ :=
  (interestTxnsIn ((s.accounts.lookup acc).getD ⟨acc, []⟩) year month).length

/-- Deposit 1000 on 2023-01-01 and a 5% rule from the same date
(C4 witness scenario, expected January interest 4.25). -/
def c4ops : List Op :=
  [.post "20230101" "A4" "D" (some 1000), .rule "20230101" "R4" (some 5)]

/-- Deposit 500 and withdraw 500 on the same day (C8 witness scenario). -/
def c8ops : List Op :=
  [.post "20230605" "A8" "D" (some 500), .post "20230605" "A8" "W" (some 500)]

/-! ## Theorems -/

theorem Date.le_iff {a b : Date} : a ≤ b ↔ a.ord ≤ b.ord := Iff.rfl

/-- C2: starting from an empty system, the two deposits, the withdrawal and
the 5% rule all succeed; accruing January 2023 returns exactly 5.08, which is
the single-rounded sum of the three day-weighted sub-periods
(1000 for 14 days, 1500 for 5 days, 1300 for 12 days at 5%/365), and appends
exactly one Interest transaction of 5.08 dated 2023-01-31. -/
theorem claim_C2_january_accrual :
    (create_transaction emptySystem "20230101" "AC" "D" (some 1000)).1 = .ok "AC" ∧
    (create_transaction c2s1 "20230115" "AC" "D" (some 500)).1 = .ok "AC" ∧
    (create_transaction c2s2 "20230120" "AC" "W" (some 200)).1 = .ok "AC" ∧
    (add_interest_rule c2s3 "20230101" "RULE03" (some 5)).1 = .ok () ∧
    (calculate_interest c2s4 "AC" 2023 1).1 = some (508 / 100) ∧
    (508 / 100 : ℚ) =
      quantize2 (1000 * 5 / 100 * 14 / 365 + 1500 * 5 / 100 * 5 / 365
        + 1300 * 5 / 100 * 12 / 365) ∧
    accountTxns (calculate_interest c2s4 "AC" 2023 1).2 "AC"
      = accountTxns c2s4 "AC" ++ [⟨⟨2023, 1, 31⟩, "AC", "I", 508 / 100, none⟩] := by
  with_unfolding_all decide

/-- C10: non-negativity of the balance is not an invariant: a deposit of 100,
a withdrawal of the full 100 at a later date, and a second withdrawal of 100
backdated between them all succeed (each withdrawal's own-date balance check
passes), yet afterwards the balance as of 2023-01-20 is strictly negative. -/
theorem claim_C10_negative_balance_reachable :
    (create_transaction emptySystem "20230110" "AY" "D" (some 100)).1 = .ok "AY" ∧
    (create_transaction c10s1 "20230120" "AY" "W" (some 100)).1 = .ok "AY" ∧
    (create_transaction c10s2 "20230115" "AY" "W" (some 100)).1 = .ok "AY" ∧
    sysBalance c10s3 "AY" ⟨2023, 1, 20⟩ < 0 := by
  with_unfolding_all decide

/-- C1 fails as stated: a withdrawal on a previously unknown account is
rejected with `InsufficientFunds`, yet the accounts map has gained a key —
the lazy account creation happens before the funds check and is not rolled
back, so the state is not unchanged. -/
theorem claim_C1_counterexample :
    (create_transaction emptySystem "20230101" "AX" "W" (some 10)).1
        = .error .insufficientFunds ∧
    (create_transaction emptySystem "20230101" "AX" "W" (some 10)).2 ≠ emptySystem ∧
    ((create_transaction emptySystem "20230101" "AX" "W" (some 10)).2).accounts.lookup "AX"
        = some ⟨"AX", []⟩ := by
  with_unfolding_all decide

/-! ## Association-list and quantization lemmas -/
theorem lookup_append_of_none {β : Type} (l1 l2 : List (String × β)) (k : String)
    (h : l1.lookup k = none) : (l1 ++ l2).lookup k = l2.lookup k := by
  induction l1 with
  | nil => simp
  | cons p rest ih =>
    rw [List.cons_append]
    by_cases hk : k == p.1
    · simp [List.lookup, hk] at h
    · simp only [List.lookup, hk] at h ⊢
      exact ih h

theorem lookup_append_of_some {β : Type} (l1 l2 : List (String × β)) (k : String) (v : β)
    (h : l1.lookup k = some v) : (l1 ++ l2).lookup k = some v := by
  induction l1 with
  | nil => simp [List.lookup] at h
  | cons p rest ih =>
    rw [List.cons_append]
    by_cases hk : k == p.1
    · simp only [List.lookup, hk] at h ⊢; exact h
    · simp only [List.lookup, hk] at h ⊢
      exact ih h

theorem lookup_updateAssoc_self {β : Type} (l : List (String × β)) (k : String) (v : β) :
    (updateAssoc l k v).lookup k = some v := by
  induction l with
  | nil => simp [updateAssoc, List.lookup]
  | cons p rest ih =>
    by_cases hk : p.1 = k
    · simp [updateAssoc, hk, List.lookup]
    · have : (k == p.1) = false := by
        simp only [beq_eq_false_iff_ne]; exact fun hh => hk hh.symm
      simp [updateAssoc, hk, List.lookup, this, ih]

theorem lookup_updateAssoc_ne {β : Type} (l : List (String × β)) (k a : String) (v : β)
    (h : a ≠ k) : (updateAssoc l k v).lookup a = l.lookup a := by
  induction l with
  | nil =>
    have hak : (a == k) = false := by simp [beq_eq_false_iff_ne, h]
    simp [updateAssoc, List.lookup, hak]
  | cons p rest ih =>
    by_cases hk : p.1 = k
    · subst hk
      have : (a == p.1) = false := by simp only [beq_eq_false_iff_ne]; exact h
      simp [updateAssoc, List.lookup, this]
    · simp only [updateAssoc, if_neg hk]
      by_cases ha : a == p.1
      · simp [List.lookup, ha]
      · simp only [List.lookup, ha]
        exact ih

theorem mem_updateAssoc {β : Type} {l : List (String × β)} {k : String} {v : β}
    {p : String × β} (h : p ∈ updateAssoc l k v) : p = (k, v) ∨ p ∈ l := by
  induction l with
  | nil => simpa [updateAssoc] using h
  | cons q rest ih =>
    by_cases hk : q.1 = k
    · simp only [updateAssoc, if_pos hk, List.mem_cons] at h
      rcases h with h | h
      · left; rw [h, ← hk]
      · right; exact List.mem_cons_of_mem _ h
    · simp only [updateAssoc, if_neg hk, List.mem_cons] at h
      rcases h with h | h
      · right; rw [h]; exact List.mem_cons_self _ _
      · rcases ih h with h' | h'
        · exact Or.inl h'
        · exact Or.inr (List.mem_cons_of_mem _ h')

theorem quantize2_eq_zero_of_small {q : ℚ} (h0 : 0 < q) (h : q < 1 / 200) :
    quantize2 q = 0 := by
  have h0' : (0 : ℚ) ≤ q * 100 := by positivity
  have : ⌊q * 100 + 1 / 2⌋ = 0 := by
    rw [Int.floor_eq_zero_iff]
    constructor
    · linarith
    · have : q * 100 < 1 / 2 := by linarith
      simpa using by linarith
  unfold quantize2 roundHalfUpInt
  rw [if_pos h0', this]
  simp

theorem quantize2_pos_of_ge_half_cent {q : ℚ} (h : 1 / 200 ≤ q) : 0 < quantize2 q := by
  have h0' : (0 : ℚ) ≤ q * 100 := by nlinarith
  have h1 : (1 : ℤ) ≤ ⌊q * 100 + 1 / 2⌋ := by
    rw [Int.le_floor]
    push_cast
    linarith
  unfold quantize2 roundHalfUpInt
  rw [if_pos h0']
  have : (1 : ℚ) ≤ (⌊q * 100 + 1 / 2⌋ : ℚ) := by exact_mod_cast h1
  linarith

/-- C9: the parsed amount is quantized (2 digits, round-half-up) before the
positivity check, so a positive amount strictly below 0.005 quantizes to 0.00
and is rejected as non-positive, while an amount of at least 0.005 quantizes
to at least 0.01 and passes (a deposit then succeeds outright). -/
theorem claim_C9_quantize_before_positivity (s : BankSystem) (ds aid tt : String)
    (q : ℚ) (date : Date) (hd : parseDate ds = some date)
    (htt : strUpper tt = "D" ∨ strUpper tt = "W") :
    (0 < q → q < 1 / 200 →
      (create_transaction s ds aid tt (some q)).1 = .error .nonPositiveAmount) ∧
    (1 / 200 ≤ q → strUpper tt = "D" →
      (create_transaction s ds aid tt (some q)).1 = .ok aid) := by
  have htt' : ¬¬ (strUpper tt = "D" ∨ strUpper tt = "W") := not_not_intro htt
  constructor
  · intro h0 hlt
    have hq0 : quantize2 q ≤ 0 := le_of_eq (quantize2_eq_zero_of_small h0 hlt)
    simp only [create_transaction, hd, if_neg htt', if_pos hq0]
  · intro hge htD
    have hqpos : 0 < quantize2 q := quantize2_pos_of_ge_half_cent hge
    have hq0 : ¬ (quantize2 q ≤ 0) := not_le.mpr hqpos
    simp only [create_transaction, hd, if_neg htt', if_neg hq0]
    have hWc : ∀ A : BankAccount, ¬ (strUpper tt = "W" ∧ ¬ can_withdraw A (quantize2 q) date) :=
      fun A hc => absurd (htD ▸ hc.1) (by decide)
    rw [if_neg (hWc _)]

/-- C9 witness: amount 0.004 (positive, quantizes to 0.00) is rejected as
non-positive; amount 0.005 is accepted. -/
theorem claim_C9_witness :
    (create_transaction emptySystem "20230101" "A9" "D" (some (1 / 250))).1
        = .error .nonPositiveAmount ∧
    (create_transaction emptySystem "20230101" "A9" "D" (some (1 / 200))).1 = .ok "A9" := by
  constructor
  · exact (claim_C9_quantize_before_positivity emptySystem "20230101" "A9" "D" (1 / 250)
      ⟨2023, 1, 1⟩ (by with_unfolding_all decide) (Or.inl (by decide))).1
      (by norm_num) (by norm_num)
  · exact (claim_C9_quantize_before_positivity emptySystem "20230101" "A9" "D" (1 / 200)
      ⟨2023, 1, 1⟩ (by with_unfolding_all decide) (Or.inl (by decide))).2
      le_rfl (by decide)

/-- C5: for a withdrawal with valid date, type and positive quantized amount,
posting fails with `InsufficientFunds` exactly when the account's balance as
of the withdrawal date is strictly below the amount (so withdrawing exactly
the balance succeeds); otherwise it succeeds; and on that failure no
transaction is appended to any account and no per-date counter changes. -/
theorem claim_C5_withdrawal_boundary (s : BankSystem) (ds aid tt : String)
    (q : ℚ) (date : Date) (hd : parseDate ds = some date)
    (ht : strUpper tt = "W") (hq : 0 < quantize2 q) :
    ((create_transaction s ds aid tt (some q)).1 = .error .insufficientFunds ↔
      sysBalance s aid date < quantize2 q) ∧
    ((create_transaction s ds aid tt (some q)).1 = .error .insufficientFunds ∨
      (create_transaction s ds aid tt (some q)).1 = .ok aid) ∧
    ((create_transaction s ds aid tt (some q)).1 = .error .insufficientFunds →
      (create_transaction s ds aid tt (some q)).2.transaction_counters
          = s.transaction_counters ∧
      ∀ a, accountTxns (create_transaction s ds aid tt (some q)).2 a = accountTxns s a) := by
  have htt' : ¬¬ (strUpper tt = "D" ∨ strUpper tt = "W") := not_not_intro (Or.inr ht)
  have hq0 : ¬ (quantize2 q ≤ 0) := not_le.mpr hq
  cases hacc : s.accounts.lookup aid with
  | some acc =>
    have hbal : sysBalance s aid date = get_balance_at_date acc date := by
      unfold sysBalance; rw [hacc]; rfl
    by_cases hlt : get_balance_at_date acc date < quantize2 q
    · have hcw : strUpper tt = "W" ∧ ¬ can_withdraw acc (quantize2 q) date :=
        ⟨ht, not_le.mpr hlt⟩
      simp only [create_transaction, hd, if_neg htt', if_neg hq0, hacc, Option.isSome_some,
        if_true, Option.getD_some, if_pos hcw]
      refine ⟨by simp [hbal, hlt], by simp, by simp⟩
    · have hcw : ¬ (strUpper tt = "W" ∧ ¬ can_withdraw acc (quantize2 q) date) :=
        fun hc => hc.2 (not_lt.mp hlt)
      simp only [create_transaction, hd, if_neg htt', if_neg hq0, hacc, Option.isSome_some,
        if_true, Option.getD_some, if_neg hcw]
      refine ⟨by simp [hbal, hlt], by simp, by simp⟩
  | none =>
    have hbal : sysBalance s aid date = 0 := by
      unfold sysBalance; rw [hacc]; rfl
    have hlook : (s.accounts ++ [(aid, (⟨aid, []⟩ : BankAccount))]).lookup aid
        = some ⟨aid, []⟩ := by
      rw [lookup_append_of_none _ _ _ hacc]; simp [List.lookup]
    have hcw : strUpper tt = "W" ∧
        ¬ can_withdraw (⟨aid, []⟩ : BankAccount) (quantize2 q) date := by
      refine ⟨ht, fun hc => ?_⟩
      have : get_balance_at_date (⟨aid, []⟩ : BankAccount) date = 0 := rfl
      rw [can_withdraw, this] at hc
      exact hq0 hc
    simp only [create_transaction, hd, if_neg htt', if_neg hq0, hacc, Option.isSome_none,
      Bool.false_eq_true, if_false, hlook, Option.getD_some, if_pos hcw]
    refine ⟨by simp [hbal, hq], by simp, fun _ => ⟨by simp, fun a => ?_⟩⟩
    unfold accountTxns
    by_cases ha : a = aid
    · subst ha
      simp only [hacc, hlook, Option.getD_some, Option.getD_none]
    · cases hl : s.accounts.lookup a with
      | some v => simp only [lookup_append_of_some _ _ _ _ hl, hl]
      | none =>
        rw [lookup_append_of_none _ _ _ hl]
        have : (a == aid) = false := by simp [beq_eq_false_iff_ne, ha]
        simp [List.lookup, this, hl]

/-- C5 witness: with a balance of 100, withdrawing exactly 100 succeeds and
withdrawing 100.01 fails with `InsufficientFunds`. -/
theorem claim_C5_witness :
    (create_transaction c5base "20230105" "A5" "W" (some 100)).1 = .ok "A5" ∧
    (create_transaction c5base "20230105" "A5" "W" (some (10001 / 100))).1
        = .error .insufficientFunds := by
  constructor
  · have h := claim_C5_withdrawal_boundary c5base "20230105" "A5" "W" 100 ⟨2023, 1, 5⟩
      (by with_unfolding_all decide) (by decide) (by with_unfolding_all decide)
    rcases h.2.1 with hfail | hok
    · exfalso
      have hlt := h.1.mp hfail
      revert hlt
      with_unfolding_all decide
    · exact hok
  · have h := claim_C5_withdrawal_boundary c5base "20230105" "A5" "W" (10001 / 100)
      ⟨2023, 1, 5⟩ (by with_unfolding_all decide) (by decide) (by with_unfolding_all decide)
    exact h.1.mpr (by with_unfolding_all decide)

theorem accountTxns_append_fresh (s : BankSystem) (aid : String)
    (hacc : s.accounts.lookup aid = none) (a : String) :
    accountTxns { s with accounts := s.accounts ++ [(aid, ⟨aid, []⟩)] } a
      = accountTxns s a := by
  unfold accountTxns
  by_cases ha : a = aid
  · subst ha
    rw [lookup_append_of_none _ _ _ hacc]
    simp [List.lookup, hacc]
  · cases hl : s.accounts.lookup a with
    | some v => simp only [lookup_append_of_some _ _ _ _ hl, hl]
    | none =>
      rw [lookup_append_of_none _ _ _ hl]
      have : (a == aid) = false := by simp [beq_eq_false_iff_ne, ha]
      simp [List.lookup, this, hl]

/-- C1, amended: a rejected `create_transaction` leaves the rule list, the
per-date counters and every account's transaction sequence unchanged, and
leaves the accounts map unchanged too — except that an `InsufficientFunds`
rejection for a previously unknown account id has lazily created (and keeps)
an empty ledger for it, appended at the end of the accounts map. -/
theorem claim_C1_rejection_state (s : BankSystem) (ds aid tt : String)
    (amt : Option ℚ) (e : PostErr)
    (h : (create_transaction s ds aid tt amt).1 = .error e) :
    (create_transaction s ds aid tt amt).2.interest_rules = s.interest_rules ∧
    (create_transaction s ds aid tt amt).2.transaction_counters = s.transaction_counters ∧
    (∀ a, accountTxns (create_transaction s ds aid tt amt).2 a = accountTxns s a) ∧
    ((create_transaction s ds aid tt amt).2.accounts = s.accounts ∨
      (e = .insufficientFunds ∧ s.accounts.lookup aid = none ∧
        (create_transaction s ds aid tt amt).2.accounts
          = s.accounts ++ [(aid, ⟨aid, []⟩)])) := by
  cases hp : parseDate ds with
  | none =>
    have hres : create_transaction s ds aid tt amt = (.error .invalidDate, s) := by
      simp only [create_transaction, hp]
    rw [hres]
    exact ⟨rfl, rfl, fun a => rfl, Or.inl rfl⟩
  | some date =>
    by_cases htt : ¬ (strUpper tt = "D" ∨ strUpper tt = "W")
    · have hres : create_transaction s ds aid tt amt = (.error .invalidType, s) := by
        simp only [create_transaction, hp, if_pos htt]
      rw [hres]
      exact ⟨rfl, rfl, fun a => rfl, Or.inl rfl⟩
    · cases amt with
      | none =>
        have hres : create_transaction s ds aid tt (none : Option ℚ)
            = (.error .invalidAmount, s) := by
          simp only [create_transaction, hp, if_neg htt]
        rw [hres]
        exact ⟨rfl, rfl, fun a => rfl, Or.inl rfl⟩
      | some q =>
        by_cases hq : quantize2 q ≤ 0
        · have hres : create_transaction s ds aid tt (some q)
              = (.error .nonPositiveAmount, s) := by
            simp only [create_transaction, hp, if_neg htt, if_pos hq]
          rw [hres]
          exact ⟨rfl, rfl, fun a => rfl, Or.inl rfl⟩
        · cases hacc : s.accounts.lookup aid with
          | some acc =>
            by_cases hcw : strUpper tt = "W" ∧ ¬ can_withdraw acc (quantize2 q) date
            · have hres : create_transaction s ds aid tt (some q)
                  = (.error .insufficientFunds, s) := by
                simp only [create_transaction, hp, if_neg htt, if_neg hq, hacc,
                  Option.isSome_some, if_true, Option.getD_some, if_pos hcw]
              rw [hres]
              exact ⟨rfl, rfl, fun a => rfl, Or.inl rfl⟩
            · exfalso
              simp only [create_transaction, hp, if_neg htt, if_neg hq, hacc,
                Option.isSome_some, if_true, Option.getD_some, if_neg hcw] at h
              exact Except.noConfusion h
          | none =>
            have hlook : (s.accounts ++ [(aid, (⟨aid, []⟩ : BankAccount))]).lookup aid
                = some ⟨aid, []⟩ := by
              rw [lookup_append_of_none _ _ _ hacc]; simp [List.lookup]
            by_cases hcw : strUpper tt = "W" ∧
                ¬ can_withdraw (⟨aid, []⟩ : BankAccount) (quantize2 q) date
            · have hres : create_transaction s ds aid tt (some q)
                  = (.error .insufficientFunds,
                      { s with accounts := s.accounts ++ [(aid, ⟨aid, []⟩)] }) := by
                simp only [create_transaction, hp, if_neg htt, if_neg hq, hacc,
                  Option.isSome_none, Bool.false_eq_true, if_false, hlook,
                  Option.getD_some, if_pos hcw]
              have he : e = PostErr.insufficientFunds := by
                rw [hres] at h
                exact (Except.error.inj h).symm
              rw [hres]
              exact ⟨rfl, rfl, accountTxns_append_fresh s aid hacc, Or.inr ⟨he, rfl, rfl⟩⟩
            · exfalso
              simp only [create_transaction, hp, if_neg htt, if_neg hq, hacc,
                Option.isSome_none, Bool.false_eq_true, if_false, hlook,
                Option.getD_some, if_neg hcw] at h
              exact Except.noConfusion h

/-- C1 amended-claim witness: a rejected deposit with an invalid date leaves
the state unchanged. -/
theorem claim_C1_rejection_state_witness :
    (create_transaction emptySystem "2023-01-01" "A1" "D" (some 10)).1
        = .error .invalidDate ∧
    (create_transaction emptySystem "2023-01-01" "A1" "D" (some 10)).2.accounts
        = emptySystem.accounts := by
  refine ⟨by with_unfolding_all decide, ?_⟩
  rcases (claim_C1_rejection_state emptySystem "2023-01-01" "A1" "D" (some 10) .invalidDate
      (by with_unfolding_all decide)).2.2.2 with h | h
  · exact h
  · exact absurd h.1 (by decide)

/-! ## Soundness of the strptime parse -/
theorem mem_ite_singleton {α : Type} {c : Prop} [Decidable c] {x y : α} :
    x ∈ (if c then [y] else []) ↔ c ∧ x = y := by
  split <;> simp_all

theorem digitVal_le_9 {c : Char} (h : c ≤ '9') : digitVal c ≤ 9 := by
  rw [Char.le_def] at h
  have hn : c.val.toNat ≤ 57 := h
  unfold digitVal Char.toNat
  have h48 : ('0').val.toNat = 48 := by decide
  omega

theorem one_le_digitVal {c : Char} (h : '1' ≤ c) : 1 ≤ digitVal c := by
  rw [Char.le_def] at h
  have hn : 49 ≤ c.val.toNat := h
  unfold digitVal Char.toNat
  have h48 : ('0').val.toNat = 48 := by decide
  omega

theorem digitVal_le_2 {c : Char} (h : c ≤ '2') : digitVal c ≤ 2 := by
  rw [Char.le_def] at h
  have hn : c.val.toNat ≤ 50 := h
  unfold digitVal Char.toNat
  have h48 : ('0').val.toNat = 48 := by decide
  omega

theorem isDigit_of_le_le {c : Char} (h1 : '0' ≤ c) (h2 : c ≤ '9') : c.isDigit = true := by
  rw [Char.le_def] at h1 h2
  simp only [Char.isDigit, Bool.and_eq_true, decide_eq_true_eq]
  exact ⟨h1, h2⟩

theorem digitVal_le_9_of_isDigit {c : Char} (h : c.isDigit = true) : digitVal c ≤ 9 := by
  simp only [Char.isDigit, Bool.and_eq_true, decide_eq_true_eq] at h
  have hn : c.val.toNat ≤ 57 := h.2
  unfold digitVal Char.toNat
  have h48 : ('0').val.toNat = 48 := by decide
  omega

theorem isDecimalDigit_of_isDigit {c : Char} (h : c.isDigit = true) :
    isDecimalDigit c = true := by
  simp only [Char.isDigit, Bool.and_eq_true, decide_eq_true_eq] at h
  have h1 : 48 ≤ c.toNat := h.1
  have h2 : c.toNat ≤ 57 := h.2
  unfold isDecimalDigit
  rw [List.any_eq_true]
  refine ⟨0x30, by decide, ?_⟩
  simp only [Bool.and_eq_true, decide_eq_true_eq]
  omega

theorem decDigitVal_le_9 (c : Char) : decDigitVal c ≤ 9 := by
  unfold decDigitVal
  cases hf : ndDigitBases.find?
      (fun b => decide (b ≤ c.toNat) && decide (c.toNat ≤ b + 9)) with
  | none => simp
  | some b =>
    have hp := List.find?_some hf
    simp only [Bool.and_eq_true, decide_eq_true_eq] at hp
    show c.toNat - b ≤ 9
    omega

theorem matchMonth_sound {cs : List Char} {m : ℕ} {r : List Char}
    (h : (m, r) ∈ matchMonth cs) :
    1 ≤ m ∧ m ≤ 12 ∧
      ∃ pre, cs = pre ++ r ∧ 1 ≤ pre.length ∧ pre.length ≤ 2 ∧
        ∀ c ∈ pre, c.isDigit = true := by
  match cs with
  | [] => simp [matchMonth] at h
  | [c1] =>
    rw [matchMonth] at h
    rw [mem_ite_singleton] at h
    obtain ⟨⟨h1, h9⟩, heq⟩ := h
    obtain ⟨hm, hr⟩ := Prod.mk.injEq .. ▸ heq
    subst hm; subst hr
    refine ⟨one_le_digitVal h1, le_trans (digitVal_le_9 h9) (by omega), [c1], by simp, by simp,
      by simp, ?_⟩
    intro c hc
    rw [List.mem_singleton] at hc; subst hc
    exact isDigit_of_le_le (le_trans (by decide) h1) h9
  | c1 :: c2 :: rest =>
    rw [matchMonth] at h
    rw [List.mem_append, List.mem_append, mem_ite_singleton, mem_ite_singleton,
      mem_ite_singleton] at h
    rcases h with (⟨⟨hc1, h0, h2⟩, heq⟩ | ⟨⟨hc1, h1, h9⟩, heq⟩) | ⟨⟨h1, h9⟩, heq⟩
    · obtain ⟨hm, hr⟩ := Prod.mk.injEq .. ▸ heq
      subst hm; subst hr; subst hc1
      refine ⟨by omega, by have := digitVal_le_2 h2; omega, ['1', c2], by simp, by simp,
        by simp, ?_⟩
      intro c hc
      rcases List.mem_cons.mp hc with hc | hc
      · subst hc; decide
      · rw [List.mem_singleton] at hc; subst hc
        exact isDigit_of_le_le h0 (le_trans h2 (by decide))
    · obtain ⟨hm, hr⟩ := Prod.mk.injEq .. ▸ heq
      subst hm; subst hr; subst hc1
      refine ⟨one_le_digitVal h1, le_trans (digitVal_le_9 h9) (by omega), ['0', c2], by simp,
        by simp, by simp, ?_⟩
      intro c hc
      rcases List.mem_cons.mp hc with hc | hc
      · subst hc; decide
      · rw [List.mem_singleton] at hc; subst hc
        exact isDigit_of_le_le (le_trans (by decide) h1) h9
    · obtain ⟨hm, hr⟩ := Prod.mk.injEq .. ▸ heq
      subst hm; subst hr
      refine ⟨one_le_digitVal h1, le_trans (digitVal_le_9 h9) (by omega), [c1], by simp,
        by simp, by simp, ?_⟩
      intro c hc
      rw [List.mem_singleton] at hc; subst hc
      exact isDigit_of_le_le (le_trans (by decide) h1) h9

theorem matchDay_sound {cs : List Char} {d : ℕ} {r : List Char}
    (h : matchDay cs = some (d, r)) :
    1 ≤ d ∧
      ∃ pre, cs = pre ++ r ∧ 1 ≤ pre.length ∧ pre.length ≤ 2 ∧
        ∀ c ∈ pre, isDecimalDigit c = true := by
  match cs with
  | [] => simp [matchDay] at h
  | [c1] =>
    rw [matchDay] at h
    split_ifs at h with h19
    obtain ⟨hd, hr⟩ := Prod.mk.injEq .. ▸ Option.some.inj h
    subst hd; subst hr
    exact ⟨one_le_digitVal h19.1, [c1], by simp, by simp, by simp,
      fun c hc => by
        rw [List.mem_singleton] at hc; subst hc
        exact isDecimalDigit_of_isDigit
          (isDigit_of_le_le (le_trans (by decide) h19.1) h19.2)⟩
  | c1 :: c2 :: rest =>
    rw [matchDay] at h
    split_ifs at h with h30 h12 h09 h19
    · obtain ⟨hd, hr⟩ := Prod.mk.injEq .. ▸ Option.some.inj h
      subst hd; subst hr
      obtain ⟨hc1, hc2⟩ := h30
      subst hc1
      refine ⟨by omega, ['3', c2], by simp, by simp, by simp, ?_⟩
      intro c hc
      rcases List.mem_cons.mp hc with hc | hc
      · subst hc; decide
      · rw [List.mem_singleton] at hc; subst hc
        rcases hc2 with hc2 | hc2
        · subst hc2; decide
        · subst hc2; decide
    · obtain ⟨hd, hr⟩ := Prod.mk.injEq .. ▸ Option.some.inj h
      subst hd; subst hr
      obtain ⟨⟨h1, h2⟩, hdig⟩ := h12
      have := one_le_digitVal h1
      refine ⟨by omega, [c1, c2], by simp, by simp, by simp, ?_⟩
      intro c hc
      rcases List.mem_cons.mp hc with hc | hc
      · subst hc
        exact isDecimalDigit_of_isDigit
          (isDigit_of_le_le (le_trans (by decide) h1) (le_trans h2 (by decide)))
      · rw [List.mem_singleton] at hc; subst hc
        exact hdig
    · obtain ⟨hd, hr⟩ := Prod.mk.injEq .. ▸ Option.some.inj h
      subst hd; subst hr
      obtain ⟨hc1, h1, h9⟩ := h09
      subst hc1
      refine ⟨one_le_digitVal h1, ['0', c2], by simp, by simp, by simp, ?_⟩
      intro c hc
      rcases List.mem_cons.mp hc with hc | hc
      · subst hc; decide
      · rw [List.mem_singleton] at hc; subst hc
        exact isDecimalDigit_of_isDigit
          (isDigit_of_le_le (le_trans (by decide) h1) h9)
    · obtain ⟨hd, hr⟩ := Prod.mk.injEq .. ▸ Option.some.inj h
      subst hd; subst hr
      obtain ⟨h1, h9⟩ := h19
      refine ⟨one_le_digitVal h1, [c1], by simp, by simp, by simp, ?_⟩
      intro c hc
      rw [List.mem_singleton] at hc; subst hc
      exact isDecimalDigit_of_isDigit
        (isDigit_of_le_le (le_trans (by decide) h1) h9)

theorem parseDate_sound {ds : String} {dt : Date} (h : parseDate ds = some dt) :
    dt.validDate ∧ 6 ≤ ds.data.length ∧ ds.data.length ≤ 8 ∧
      ∀ c ∈ ds.data, isDecimalDigit c = true := by
  unfold parseDate at h
  rcases hl : ds.data with _ | ⟨c1, _ | ⟨c2, _ | ⟨c3, _ | ⟨c4, rest⟩⟩⟩⟩ <;> rw [hl] at h
  · simp at h
  · simp at h
  · simp at h
  · simp at h
  · dsimp only at h
    split_ifs at h with hdig
    obtain ⟨hd1, hd2, hd3, hd4⟩ := hdig
    cases hmd : matchMD rest with
    | none => rw [hmd] at h; simp at h
    | some v =>
      obtain ⟨m, d, rest2⟩ := v
      rw [hmd] at h
      simp only at h
      split_ifs at h with hcond
      obtain ⟨hrest2, hy1, hday⟩ := hcond
      have hdt : dt = ⟨1000 * decDigitVal c1 + 100 * decDigitVal c2
          + 10 * decDigitVal c3 + decDigitVal c4, m, d⟩ := (Option.some.inj h).symm
      subst hrest2
      unfold matchMD at hmd
      obtain ⟨p, hpmem, hpf⟩ := List.exists_of_findSome?_eq_some hmd
      obtain ⟨pm, prest⟩ := p
      obtain ⟨dr, hdr, hdreq⟩ := Option.map_eq_some'.mp hpf
      obtain ⟨dd, drest⟩ := dr
      simp only [Prod.mk.injEq] at hdreq
      obtain ⟨hp1, hdr1, hdr2⟩ := hdreq
      subst hp1; subst hdr1; subst hdr2
      obtain ⟨hm1, hm12, preM, hpreM, hpreM1, hpreM2, hpreMdig⟩ := matchMonth_sound hpmem
      obtain ⟨hd1le, preD, hpreD, hpreD1, hpreD2, hpreDdig⟩ := matchDay_sound hdr
      simp only [List.append_nil] at hpreD
      subst hpreD
      have hy9999 : 1000 * decDigitVal c1 + 100 * decDigitVal c2
          + 10 * decDigitVal c3 + decDigitVal c4 ≤ 9999 := by
        have b1 := decDigitVal_le_9 c1
        have b2 := decDigitVal_le_9 c2
        have b3 := decDigitVal_le_9 c3
        have b4 := decDigitVal_le_9 c4
        omega
      refine ⟨?_, ?_, ?_, ?_⟩
      · rw [hdt]
        exact ⟨hy1, hy9999, hm1, hm12, hd1le, hday⟩
      · rw [hpreM]
        simp only [List.length_cons, List.length_append]
        omega
      · rw [hpreM]
        simp only [List.length_cons, List.length_append]
        omega
      · intro c hc
        rcases List.mem_cons.mp hc with hc | hc
        · subst hc; exact hd1
        rcases List.mem_cons.mp hc with hc | hc
        · subst hc; exact hd2
        rcases List.mem_cons.mp hc with hc | hc
        · subst hc; exact hd3
        rcases List.mem_cons.mp hc with hc | hc
        · subst hc; exact hd4
        rw [hpreM] at hc
        rcases List.mem_append.mp hc with hc | hc
        · exact isDecimalDigit_of_isDigit (hpreMdig c hc)
        · exact hpreDdig c hc

theorem rawInterest_eq_spec (a : BankAccount) (rules : List InterestRule) (endDate : Date)
    (l : List Date) : rawInterest a rules endDate l = specRawInterest a rules endDate l := by
  induction l with
  | nil => rfl
  | cons d rest ih =>
    unfold rawInterest specRawInterest specPeriods
    by_cases hd : d = endDate
    · rw [if_pos hd, if_pos hd]
      simp only [List.nil_append]
      exact ih
    · rw [if_neg hd, if_neg hd]
      rw [List.singleton_append, List.map_cons, List.sum_cons]
      cases har : applicableRate rules d with
      | none =>
        simp only [specPeriodTerm, har]
        rw [ih]
        unfold specRawInterest
        ring
      | some rate =>
        simp only [specPeriodTerm, har]
        rw [ih]
        unfold specRawInterest
        ring

theorem interestTotal_eq_spec (s : BankSystem) (account : BankAccount) (year month : ℕ) :
    interestTotal s account year month = specMonthTotal s account year month := by
  unfold interestTotal specMonthTotal
  rw [rawInterest_eq_spec]

/-- C3: whenever `calculate_interest` goes through to a computation, the
value it returns (and posts, when positive) is the spec's breakpoint-period
sum — each sub-period contributing the exact rational
`balance * rate / 100 * periodDays / 365` with the fixed divisor 365 —
accumulated without intermediate rounding and quantized exactly once,
2 digits round-half-up; a return of 0 means that single-quantized total was
not positive. -/
theorem claim_C3_single_rounded_period_sum (s : BankSystem) (acc : String)
    (account : BankAccount) (year month : ℕ) (v : ℚ)
    (hacc : s.accounts.lookup acc = some account)
    (hres : (calculate_interest s acc year month).1 = some v) :
    (0 < v → v = specMonthTotal s account year month) ∧
    (v = 0 → specMonthTotal s account year month ≤ 0) := by
  simp only [calculate_interest, hacc] at hres
  by_cases h1 : (List.filter (fun t => decide (t.date ≤ endOfMonth year month))
      account.transactions).isEmpty = true
  · rw [if_pos h1] at hres
    exact absurd hres (by simp)
  · rw [if_neg h1] at hres
    by_cases h2 : (List.filter
        (fun t => decide (t.transaction_type = "I" ∧ t.date.year = year ∧ t.date.month = month))
        (List.filter (fun t => decide (t.date ≤ endOfMonth year month))
          account.transactions)).isEmpty = true
    · rw [if_neg (not_not_intro h2)] at hres
      by_cases h3 : 0 < interestTotal s account year month
      · rw [if_pos h3] at hres
        have hv : v = interestTotal s account year month := (Option.some.inj hres).symm
        rw [interestTotal_eq_spec] at hv
        refine ⟨fun _ => hv, fun h0 => ?_⟩
        rw [h0] at hv
        exact le_of_eq hv.symm
      · rw [if_neg h3] at hres
        have hv : v = 0 := (Option.some.inj hres).symm
        have hle : specMonthTotal s account year month ≤ 0 := by
          rw [← interestTotal_eq_spec]
          exact not_lt.mp h3
        exact ⟨fun hpos => absurd (hv ▸ hpos) (lt_irrefl 0), fun _ => hle⟩
    · rw [if_pos h2] at hres
      exact absurd hres (by simp)

/-- C3 witness in a leap-year February: the accrual for 2024-02 returns 3.97
= quantize2(1000 * 5 / 100 * 29 / 365) — 29 days divided by 365 even in a
leap year — and that value is the spec's single-quantized period sum. -/
theorem claim_C3_witness :
    (calculate_interest c3base "A3" 2024 2).1 = some (397 / 100) ∧
    (397 / 100 : ℚ) = specMonthTotal c3base
      ⟨"A3", [⟨⟨2024, 2, 1⟩, "A3", "D", 1000, some "20240201-01"⟩]⟩ 2024 2 ∧
    (397 / 100 : ℚ) = quantize2 (1000 * 5 / 100 * 29 / 365) := by
  have h1 : (calculate_interest c3base "A3" 2024 2).1 = some (397 / 100) := by
    with_unfolding_all decide
  refine ⟨h1, ?_, by with_unfolding_all decide⟩
  exact (claim_C3_single_rounded_period_sum c3base "A3"
    ⟨"A3", [⟨⟨2024, 2, 1⟩, "A3", "D", 1000, some "20240201-01"⟩]⟩ 2024 2 (397 / 100)
    (by with_unfolding_all decide) h1).1 (by norm_num)

/-! ## Sorting, lookup-membership and quantization identities -/
theorem insertSorted_perm {α : Type} (key : α → ℕ) (x : α) (l : List α) :
    (insertSorted key x l).Perm (x :: l) := by
  induction l with
  | nil => exact List.Perm.refl _
  | cons y ys ih =>
    unfold insertSorted
    split
    · exact List.Perm.refl _
    · exact ((ih.cons y).trans (List.Perm.swap x y ys))

theorem insertSorted_sorted {α : Type} (key : α → ℕ) (x : α) {l : List α}
    (h : l.Pairwise (fun a b => key a ≤ key b)) :
    (insertSorted key x l).Pairwise (fun a b => key a ≤ key b) := by
  induction l with
  | nil => simp [insertSorted]
  | cons y ys ih =>
    unfold insertSorted
    rcases List.pairwise_cons.mp h with ⟨hy, hys⟩
    split
    · refine List.pairwise_cons.mpr ⟨?_, h⟩
      intro z hz
      rcases List.mem_cons.mp hz with hz | hz
      · subst hz; omega
      · have := hy z hz
        omega
    · refine List.pairwise_cons.mpr ⟨?_, ih hys⟩
      intro z hz
      have hz' := (insertSorted_perm key x ys).mem_iff.mp hz
      rcases List.mem_cons.mp hz' with hz' | hz'
      · subst hz'; omega
      · exact hy z hz'

theorem foldl_insertSorted_perm {α : Type} (key : α → ℕ) (l acc : List α) :
    (l.foldl (fun a x => insertSorted key x a) acc).Perm (l ++ acc) := by
  induction l generalizing acc with
  | nil => simp
  | cons x xs ih =>
    simp only [List.foldl_cons, List.cons_append]
    refine (ih (insertSorted key x acc)).trans ?_
    refine (List.Perm.append_left xs (insertSorted_perm key x acc)).trans ?_
    exact List.perm_middle

theorem sortByKey_perm {α : Type} (key : α → ℕ) (l : List α) :
    (sortByKey key l).Perm l := by
  unfold sortByKey
  simpa using foldl_insertSorted_perm key l []

theorem sortByKey_sorted {α : Type} (key : α → ℕ) (l : List α) :
    (sortByKey key l).Pairwise (fun a b => key a ≤ key b) := by
  unfold sortByKey
  have haux : ∀ (l acc : List α), acc.Pairwise (fun a b => key a ≤ key b) →
      (l.foldl (fun a x => insertSorted key x a) acc).Pairwise
        (fun a b => key a ≤ key b) := by
    intro l
    induction l with
    | nil => intro acc h; simpa using h
    | cons x xs ih =>
      intro acc h
      exact ih _ (insertSorted_sorted key x h)
  exact haux l [] (by simp)

theorem quantize2_idem (q : ℚ) : quantize2 (quantize2 q) = quantize2 q := by
  unfold quantize2
  have hmul : (roundHalfUpInt (q * 100) : ℚ) / 100 * 100 = (roundHalfUpInt (q * 100) : ℚ) := by
    field_simp
  rw [hmul]
  suffices h : ∀ n : ℤ, roundHalfUpInt (n : ℚ) = n by rw [h]
  intro n
  unfold roundHalfUpInt
  by_cases hn : (0 : ℚ) ≤ (n : ℚ)
  · rw [if_pos hn]
    rw [show ((n : ℚ) + 1 / 2) = 1 / 2 + (n : ℚ) by ring, Int.floor_add_int]
    norm_num
  · rw [if_neg hn]
    rw [show (-(n : ℚ) + 1 / 2) = 1 / 2 + ((-n : ℤ) : ℚ) by push_cast; ring,
      Int.floor_add_int]
    norm_num

theorem mem_of_lookup_eq_some {β : Type} {l : List (String × β)} {k : String} {v : β}
    (h : l.lookup k = some v) : (k, v) ∈ l := by
  induction l with
  | nil => simp [List.lookup] at h
  | cons p rest ih =>
    by_cases hk : k == p.1
    · simp only [List.lookup, hk] at h
      have hk' : k = p.1 := by simpa using hk
      have hv' : v = p.2 := (Option.some.inj h).symm
      rw [hk', hv']
      exact List.Mem.head _
    · simp only [List.lookup, hk] at h
      exact List.mem_cons_of_mem _ (ih h)

theorem ord_le_of_same_month {t : Date} {y m : ℕ} (hv : t.validDate)
    (hy : t.year = y) (hm : t.month = m) : t ≤ endOfMonth y m := by
  obtain ⟨_, _, _, _, _, hday⟩ := hv
  subst hy; subst hm
  rw [Date.le_iff]
  unfold Date.ord endOfMonth
  simp only
  omega

/-! ## Outcome characterizations of the operations -/
theorem create_transaction_state_cases (s : BankSystem) (ds aid tt : String)
    (amt : Option ℚ) :
    ((create_transaction s ds aid tt amt).2 = s) ∨
    ((create_transaction s ds aid tt amt).2
        = { s with accounts := s.accounts ++ [(aid, ⟨aid, []⟩)] }) ∨
    (∃ date q cnt s1 account,
      parseDate ds = some date ∧ amt = some q ∧
      (strUpper tt = "D" ∨ strUpper tt = "W") ∧
      (s1 = s ∨ s1 = { s with accounts := s.accounts ++ [(aid, ⟨aid, []⟩)] }) ∧
      s1.accounts.lookup aid = some account ∧
      (create_transaction s ds aid tt amt).2
        = { s1 with
            transaction_counters := updateAssoc s1.transaction_counters ds cnt,
            accounts := updateAssoc s1.accounts aid
              ({ account with transactions := account.transactions
                  ++ [mkTransaction date aid tt (quantize2 q) (some (formatTxnId ds cnt))] }) }) := by
  cases hp : parseDate ds with
  | none =>
    left
    simp only [create_transaction, hp]
  | some date =>
    by_cases htt : ¬ (strUpper tt = "D" ∨ strUpper tt = "W")
    · left
      simp only [create_transaction, hp, if_pos htt]
    · cases amt with
      | none =>
        left
        simp only [create_transaction, hp, if_neg htt]
      | some q =>
        by_cases hq : quantize2 q ≤ 0
        · left
          simp only [create_transaction, hp, if_neg htt, if_pos hq]
        · cases hacc : s.accounts.lookup aid with
          | some acc =>
            by_cases hcw : strUpper tt = "W" ∧ ¬ can_withdraw acc (quantize2 q) date
            · left
              simp only [create_transaction, hp, if_neg htt, if_neg hq, hacc,
                Option.isSome_some, if_true, Option.getD_some, if_pos hcw]
            · right; right
              refine ⟨date, q, (s.transaction_counters.lookup ds).getD 0 + 1, s, acc,
                rfl, rfl, not_not.mp htt, Or.inl rfl, hacc, ?_⟩
              simp only [create_transaction, hp, if_neg htt, if_neg hq, hacc,
                Option.isSome_some, if_true, Option.getD_some, if_neg hcw]
          | none =>
            have hlook : (s.accounts ++ [(aid, (⟨aid, []⟩ : BankAccount))]).lookup aid
                = some ⟨aid, []⟩ := by
              rw [lookup_append_of_none _ _ _ hacc]; simp [List.lookup]
            by_cases hcw : strUpper tt = "W" ∧
                ¬ can_withdraw (⟨aid, []⟩ : BankAccount) (quantize2 q) date
            · right; left
              simp only [create_transaction, hp, if_neg htt, if_neg hq, hacc,
                Option.isSome_none, Bool.false_eq_true, if_false, hlook,
                Option.getD_some, if_pos hcw]
            · right; right
              refine ⟨date, q, (s.transaction_counters.lookup ds).getD 0 + 1,
                { s with accounts := s.accounts ++ [(aid, ⟨aid, []⟩)] }, ⟨aid, []⟩,
                rfl, rfl, not_not.mp htt, Or.inr rfl, hlook, ?_⟩
              simp only [create_transaction, hp, if_neg htt, if_neg hq, hacc,
                Option.isSome_none, Bool.false_eq_true, if_false, hlook,
                Option.getD_some, if_neg hcw]

theorem add_interest_rule_state_cases (s : BankSystem) (ds rid : String)
    (rate : Option ℚ) :
    ((add_interest_rule s ds rid rate).2 = s ∧
      ∃ e, (add_interest_rule s ds rid rate).1 = .error e) ∨
    (∃ date q,
      parseDate ds = some date ∧ rate = some q ∧
      ¬ (quantize2 q ≤ 0 ∨ 100 ≤ quantize2 q) ∧
      (add_interest_rule s ds rid rate).2
        = { s with interest_rules := sortByKey (fun r => r.date.ord) ((s.interest_rules.filter (fun r => decide (r.date ≠ date))) ++ [mkInterestRule date rid (quantize2 q)]) }) := by
  cases hp : parseDate ds with
  | none =>
    have hres : add_interest_rule s ds rid rate = (.error .invalidDate, s) := by
      simp only [add_interest_rule, hp]
    left
    rw [hres]
    exact ⟨rfl, .invalidDate, rfl⟩
  | some date =>
    cases rate with
    | none =>
      have hres : add_interest_rule s ds rid (none : Option ℚ)
          = (.error .invalidRate, s) := by
        simp only [add_interest_rule, hp]
      left
      rw [hres]
      exact ⟨rfl, .invalidRate, rfl⟩
    | some q =>
      by_cases hr : quantize2 q ≤ 0 ∨ 100 ≤ quantize2 q
      · have hres : add_interest_rule s ds rid (some q)
            = (.error .rateOutOfRange, s) := by
          simp only [add_interest_rule, hp, if_pos hr]
        left
        rw [hres]
        exact ⟨rfl, .rateOutOfRange, rfl⟩
      · right
        refine ⟨date, q, rfl, rfl, hr, ?_⟩
        simp only [add_interest_rule, hp, if_neg hr]

theorem calculate_interest_cases (s : BankSystem) (acc : String) (y m : ℕ) :
    ((calculate_interest s acc y m).2 = s ∧
      ((calculate_interest s acc y m).1 = none ∨
        (calculate_interest s acc y m).1 = some 0)) ∨
    (∃ account, s.accounts.lookup acc = some account ∧
      0 < interestTotal s account y m ∧
      ((account.transactions.filter (fun t => decide (t.date ≤ endOfMonth y m))).filter
        (fun t => decide (t.transaction_type = "I" ∧ t.date.year = y ∧ t.date.month = m))).isEmpty
          = true ∧
      calculate_interest s acc y m
        = (some (interestTotal s account y m),
           { s with accounts := updateAssoc s.accounts acc ({ account with transactions := account.transactions ++ [mkTransaction (endOfMonth y m) acc "I" (interestTotal s account y m) none] }) })) := by
  cases hacc : s.accounts.lookup acc with
  | none =>
    left
    simp only [calculate_interest, hacc]
    simp
  | some account =>
    by_cases h1 : (List.filter (fun t => decide (t.date ≤ endOfMonth y m))
        account.transactions).isEmpty = true
    · left
      simp only [calculate_interest, hacc, if_pos h1]
      simp
    · by_cases h2 : (List.filter
          (fun t => decide (t.transaction_type = "I" ∧ t.date.year = y ∧ t.date.month = m))
          (List.filter (fun t => decide (t.date ≤ endOfMonth y m))
            account.transactions)).isEmpty = true
      · by_cases h3 : 0 < interestTotal s account y m
        · right
          refine ⟨account, rfl, h3, h2, ?_⟩
          simp only [calculate_interest, hacc, if_neg h1, if_neg (not_not_intro h2), if_pos h3]
        · left
          simp only [calculate_interest, hacc, if_neg h1, if_neg (not_not_intro h2), if_neg h3]
          simp
      · left
        simp only [calculate_interest, hacc, if_neg h1, if_pos h2]
        simp

theorem calc_none_of_interest_exists (s : BankSystem) (acc : String) (y m : ℕ)
    (account : BankAccount) (hacc : s.accounts.lookup acc = some account)
    (t : Transaction) (ht : t ∈ account.transactions) (hty : t.transaction_type = "I")
    (hy : t.date.year = y) (hm : t.date.month = m) (hle : t.date ≤ endOfMonth y m) :
    calculate_interest s acc y m = (none, s) := by
  have htf : t ∈ List.filter (fun t => decide (t.date ≤ endOfMonth y m))
      account.transactions :=
    List.mem_filter.mpr ⟨ht, by simp [hle]⟩
  have hti : t ∈ List.filter
      (fun t => decide (t.transaction_type = "I" ∧ t.date.year = y ∧ t.date.month = m))
      (List.filter (fun t => decide (t.date ≤ endOfMonth y m)) account.transactions) :=
    List.mem_filter.mpr ⟨htf, by simp [hty, hy, hm]⟩
  have h1 : (List.filter (fun t => decide (t.date ≤ endOfMonth y m))
      account.transactions).isEmpty = false := by
    rcases hx : List.filter (fun t => decide (t.date ≤ endOfMonth y m))
        account.transactions with _ | _
    · rw [hx] at htf; simp at htf
    · rw [hx]; simp
  have h2 : ¬ ((List.filter
      (fun t => decide (t.transaction_type = "I" ∧ t.date.year = y ∧ t.date.month = m))
      (List.filter (fun t => decide (t.date ≤ endOfMonth y m))
        account.transactions)).isEmpty = true) := by
    rcases hx : List.filter
        (fun t => decide (t.transaction_type = "I" ∧ t.date.year = y ∧ t.date.month = m))
        (List.filter (fun t => decide (t.date ≤ endOfMonth y m)) account.transactions)
        with _ | _
    · rw [hx] at hti; simp at hti
    · rw [hx]; simp
  simp only [calculate_interest, hacc]
  rw [if_neg (by rw [h1]; exact Bool.false_ne_true), if_pos h2]

/-! ## The reachable-state invariant -/
theorem daysInMonth_pos (y m : ℕ) : 1 ≤ daysInMonth y m := by
  unfold daysInMonth
  split
  · split <;> omega
  · split <;> omega

theorem SysInv_empty : SysInv emptySystem := by
  constructor <;> simp [emptySystem]

theorem SysInv_append_fresh {s : BankSystem} (aid : String) (h : SysInv s) :
    SysInv { s with accounts := s.accounts ++ [(aid, ⟨aid, []⟩)] } := by
  have hmem : ∀ p : String × BankAccount,
      p ∈ s.accounts ++ [(aid, (⟨aid, []⟩ : BankAccount))] →
      p ∈ s.accounts ∨ p.2.transactions = [] := by
    intro p hp
    rcases List.mem_append.mp hp with hp | hp
    · exact Or.inl hp
    · right
      rw [List.mem_singleton] at hp
      rw [hp]
  constructor
  · intro p hp t ht
    rcases hmem p hp with h' | h'
    · exact h.dates_valid p h' t ht
    · rw [h'] at ht; simp at ht
  · intro p hp year month
    rcases hmem p hp with h' | h'
    · exact h.interest_once p h' year month
    · simp [interestTxnsIn, h']
  · intro p hp t ht
    rcases hmem p hp with h' | h'
    · exact h.interest_pos p h' t ht
    · rw [h'] at ht; simp at ht
  · exact h.rules_nodup

theorem SysInv_create {s : BankSystem} (ds aid tt : String) (amt : Option ℚ)
    (h : SysInv s) : SysInv (create_transaction s ds aid tt amt).2 := by
  rcases create_transaction_state_cases s ds aid tt amt with
    hc | hc | ⟨date, q, cnt, s1, account, hp, hq, htt, hs1, hacc, hc⟩
  · rw [hc]; exact h
  · rw [hc]; exact SysInv_append_fresh aid h
  · rw [hc]
    have hinv1 : SysInv s1 := by
      rcases hs1 with h1 | h1
      · rw [h1]; exact h
      · rw [h1]; exact SysInv_append_fresh aid h
    have hmem : (aid, account) ∈ s1.accounts := mem_of_lookup_eq_some hacc
    have htype : (mkTransaction date aid tt (quantize2 q)
        (some (formatTxnId ds cnt))).transaction_type ≠ "I" := by
      show strUpper tt ≠ "I"
      rcases htt with h' | h' <;> rw [h'] <;> decide
    have hdatev : date.validDate := (parseDate_sound hp).1
    have hval : ∀ p : String × BankAccount, p ∈ (updateAssoc s1.accounts aid
        ({ account with transactions := account.transactions
            ++ [mkTransaction date aid tt (quantize2 q) (some (formatTxnId ds cnt))] })) →
        p = (aid, { account with transactions := account.transactions
            ++ [mkTransaction date aid tt (quantize2 q) (some (formatTxnId ds cnt))] })
          ∨ p ∈ s1.accounts := fun p hp' => mem_updateAssoc hp'
    constructor
    · intro p hp' t ht
      rcases hval p hp' with he | he
      · rw [he] at ht
        simp only at ht
        rcases List.mem_append.mp ht with ht | ht
        · exact hinv1.dates_valid _ hmem t ht
        · rw [List.mem_singleton] at ht
          rw [ht]
          exact hdatev
      · exact hinv1.dates_valid p he t ht
    · intro p hp' year month
      rcases hval p hp' with he | he
      · rw [he]
        simp only [interestTxnsIn, List.filter_append]
        have hnil : List.filter
            (fun t => decide (t.transaction_type = "I" ∧ t.date.year = year
              ∧ t.date.month = month))
            [mkTransaction date aid tt (quantize2 q) (some (formatTxnId ds cnt))] = [] := by
          rw [List.filter_cons, if_neg]
          · rfl
          · simp only [decide_eq_true_eq]
            intro hcontra
            exact htype hcontra.1
        rw [hnil, List.append_nil]
        exact hinv1.interest_once _ hmem year month
      · exact hinv1.interest_once p he year month
    · intro p hp' t ht
      rcases hval p hp' with he | he
      · rw [he] at ht
        simp only at ht
        rcases List.mem_append.mp ht with ht | ht
        · exact hinv1.interest_pos _ hmem t ht
        · rw [List.mem_singleton] at ht
          intro hI
          rw [ht] at hI
          exact absurd hI htype
      · exact hinv1.interest_pos p he t ht
    · exact hinv1.rules_nodup

theorem SysInv_addRule {s : BankSystem} (ds rid : String) (rate : Option ℚ)
    (h : SysInv s) : SysInv (add_interest_rule s ds rid rate).2 := by
  rcases add_interest_rule_state_cases s ds rid rate with ⟨hc, _⟩ | ⟨date, q, hp, hq, hr, hc⟩
  · rw [hc]; exact h
  · rw [hc]
    constructor
    · exact h.dates_valid
    · exact h.interest_once
    · exact h.interest_pos
    · have hperm := (sortByKey_perm (fun r => r.date.ord)
        ((s.interest_rules.filter (fun r => decide (r.date ≠ date)))
          ++ [mkInterestRule date rid (quantize2 q)])).map (fun r => r.date)
      rw [hperm.nodup_iff, List.map_append, List.nodup_append]
      refine ⟨h.rules_nodup.sublist ((List.filter_sublist _).map _), by simp, ?_⟩
      intro a ha hb
      simp only [List.map_cons, List.map_nil, List.mem_singleton] at hb
      obtain ⟨r, hrmem, hrd⟩ := List.mem_map.mp ha
      have hne := List.of_mem_filter hrmem
      rw [decide_eq_true_eq] at hne
      exact hne (hrd.trans hb)

theorem SysInv_calc {s : BankSystem} (acc : String) {y m : ℕ}
    (hy1 : 1 ≤ y) (hy2 : y ≤ 9999) (hm1 : 1 ≤ m) (hm2 : m ≤ 12) (h : SysInv s) :
    SysInv (calculate_interest s acc y m).2 := by
  rcases calculate_interest_cases s acc y m with ⟨hc, _⟩ | ⟨account, hacc, hpos, hnoi, hc⟩
  · rw [hc]; exact h
  · rw [hc]
    have hmem : (acc, account) ∈ s.accounts := mem_of_lookup_eq_some hacc
    have htype : (mkTransaction (endOfMonth y m) acc "I"
        (interestTotal s account y m) none).transaction_type = "I" := by
      show strUpper "I" = "I"
      decide
    have hamt : (mkTransaction (endOfMonth y m) acc "I"
        (interestTotal s account y m) none).amount = interestTotal s account y m := by
      show quantize2 (interestTotal s account y m) = interestTotal s account y m
      unfold interestTotal
      exact quantize2_idem _
    have hdatev : (endOfMonth y m).validDate :=
      ⟨hy1, hy2, hm1, hm2, daysInMonth_pos y m, le_refl _⟩
    have hnil : List.filter (fun t => decide (t.transaction_type = "I"
        ∧ t.date.year = y ∧ t.date.month = m)) account.transactions = [] := by
      rw [List.eq_nil_iff_forall_not_mem]
      intro t htmem
      rw [List.mem_filter, decide_eq_true_eq] at htmem
      obtain ⟨ht, hty, hyy, hmm⟩ := htmem
      have hvalid := h.dates_valid _ hmem t ht
      have hle := ord_le_of_same_month hvalid hyy hmm
      have h1 : t ∈ account.transactions.filter
          (fun t => decide (t.date ≤ endOfMonth y m)) :=
        List.mem_filter.mpr ⟨ht, by simp [hle]⟩
      have h2 : t ∈ (account.transactions.filter
          (fun t => decide (t.date ≤ endOfMonth y m))).filter
          (fun t => decide (t.transaction_type = "I" ∧ t.date.year = y
            ∧ t.date.month = m)) :=
        List.mem_filter.mpr ⟨h1, by simp [hty, hyy, hmm]⟩
      rcases hx : (account.transactions.filter
          (fun t => decide (t.date ≤ endOfMonth y m))).filter
          (fun t => decide (t.transaction_type = "I" ∧ t.date.year = y
            ∧ t.date.month = m)) with _ | _
      · rw [hx] at h2; simp at h2
      · rw [hx] at hnoi; simp at hnoi
    have hval : ∀ p : String × BankAccount, p ∈ (updateAssoc s.accounts acc
        ({ account with transactions := account.transactions
            ++ [mkTransaction (endOfMonth y m) acc "I"
                  (interestTotal s account y m) none] })) →
        p = (acc, { account with transactions := account.transactions
            ++ [mkTransaction (endOfMonth y m) acc "I"
                  (interestTotal s account y m) none] })
          ∨ p ∈ s.accounts := fun p hp' => mem_updateAssoc hp'
    constructor
    · intro p hp' t ht
      rcases hval p hp' with he | he
      · rw [he] at ht
        simp only at ht
        rcases List.mem_append.mp ht with ht | ht
        · exact h.dates_valid _ hmem t ht
        · rw [List.mem_singleton] at ht
          rw [ht]
          exact hdatev
      · exact h.dates_valid p he t ht
    · intro p hp' year month
      rcases hval p hp' with he | he
      · rw [he]
        simp only [interestTxnsIn, List.filter_append, List.length_append]
        by_cases hym : y = year ∧ m = month
        · obtain ⟨hy', hm'⟩ := hym
          subst hy'; subst hm'
          rw [hnil]
          simp only [List.length_nil, Nat.zero_add]
          exact le_trans (List.length_filter_le _ _) (by simp)
        · have hsingle : List.filter (fun t => decide (t.transaction_type = "I"
              ∧ t.date.year = year ∧ t.date.month = month))
              [mkTransaction (endOfMonth y m) acc "I"
                (interestTotal s account y m) none] = [] := by
            rw [List.filter_cons, if_neg]
            · rfl
            · simp only [decide_eq_true_eq]
              intro hcontra
              exact hym ⟨hcontra.2.1, hcontra.2.2⟩
          rw [hsingle]
          simp only [List.length_nil, Nat.add_zero]
          exact h.interest_once _ hmem year month
      · exact h.interest_once p he year month
    · intro p hp' t ht
      rcases hval p hp' with he | he
      · rw [he] at ht
        simp only at ht
        rcases List.mem_append.mp ht with ht | ht
        · exact h.interest_pos _ hmem t ht
        · rw [List.mem_singleton] at ht
          intro _
          rw [ht, hamt]
          exact hpos
      · exact h.interest_pos p he t ht
    · exact h.rules_nodup

theorem SysInv_applyOp {s : BankSystem} (op : Op) (h : SysInv s) :
    SysInv (applyOp s op) := by
  cases op with
  | post d a t amt => exact SysInv_create d a t amt h
  | rule d r rt => exact SysInv_addRule d r rt h
  | accrue a y m =>
    simp only [applyOp]
    split
    · next hc => exact SysInv_calc a hc.1 hc.2.1 hc.2.2.1 hc.2.2.2 h
    · exact h

theorem SysInv_run (ops : List Op) : SysInv (run ops) := by
  unfold run
  have haux : ∀ (l : List Op) (s : BankSystem), SysInv s → SysInv (l.foldl applyOp s) := by
    intro l
    induction l with
    | nil => intro s h; exact h
    | cons op l ih => intro s h; exact ih _ (SysInv_applyOp op h)
  exact haux ops emptySystem SysInv_empty

theorem interestTxnsIn_nil_of_checked {s : BankSystem} {account : BankAccount}
    {acc : String} {y m : ℕ} (h : SysInv s)
    (hacc : s.accounts.lookup acc = some account)
    (hnoi : ((account.transactions.filter
        (fun t => decide (t.date ≤ endOfMonth y m))).filter
      (fun t => decide (t.transaction_type = "I" ∧ t.date.year = y
        ∧ t.date.month = m))).isEmpty = true) :
    interestTxnsIn account y m = [] := by
  have hmem : (acc, account) ∈ s.accounts := mem_of_lookup_eq_some hacc
  unfold interestTxnsIn
  rw [List.eq_nil_iff_forall_not_mem]
  intro t htmem
  rw [List.mem_filter, decide_eq_true_eq] at htmem
  obtain ⟨ht, hty, hyy, hmm⟩ := htmem
  have hvalid := h.dates_valid _ hmem t ht
  have hle := ord_le_of_same_month hvalid hyy hmm
  have h1 : t ∈ account.transactions.filter
      (fun t => decide (t.date ≤ endOfMonth y m)) :=
    List.mem_filter.mpr ⟨ht, by simp [hle]⟩
  have h2 : t ∈ (account.transactions.filter
      (fun t => decide (t.date ≤ endOfMonth y m))).filter
      (fun t => decide (t.transaction_type = "I" ∧ t.date.year = y
        ∧ t.date.month = m)) :=
    List.mem_filter.mpr ⟨h1, by simp [hty, hyy, hmm]⟩
  rcases hx : (account.transactions.filter
      (fun t => decide (t.date ≤ endOfMonth y m))).filter
      (fun t => decide (t.transaction_type = "I" ∧ t.date.year = y
        ∧ t.date.month = m)) with _ | _
  · rw [hx] at h2; simp at h2
  · rw [hx] at hnoi; simp at hnoi

/-- C4: in every reachable state, once an accrual for a given account and
month has posted a (positive) Interest transaction, the account carries at
most one Interest transaction for that month — exactly one right after the
posting — and a repeated accrual for the same account and month returns
`None` and leaves the state untouched. -/
theorem claim_C4_interest_idempotent (ops : List Op) (acc : String) (y m : ℕ) (v : ℚ)
    (hres : (calculate_interest (run ops) acc y m).1 = some v) (hv : 0 < v) :
    interestCount (run ops) acc y m ≤ 1 ∧
    calculate_interest ((calculate_interest (run ops) acc y m).2) acc y m
        = (none, (calculate_interest (run ops) acc y m).2) ∧
    interestCount ((calculate_interest (run ops) acc y m).2) acc y m = 1 := by
  have hinv := SysInv_run ops
  rcases calculate_interest_cases (run ops) acc y m with
    ⟨hc2, hc1⟩ | ⟨account, hacc, hpos, hnoi, hc⟩
  · exfalso
    rcases hc1 with hnone | hzero
    · rw [hres] at hnone; exact Option.noConfusion hnone
    · rw [hres] at hzero
      rw [Option.some.inj hzero] at hv
      exact lt_irrefl 0 hv
  · have h2 := congrArg Prod.snd hc
    simp only at h2
    have hnil : interestTxnsIn account y m = [] :=
      interestTxnsIn_nil_of_checked hinv hacc hnoi
    have hlook2 : ((calculate_interest (run ops) acc y m).2).accounts.lookup acc
        = some ({ account with transactions := account.transactions
            ++ [mkTransaction (endOfMonth y m) acc "I"
                  (interestTotal (run ops) account y m) none] }) := by
      rw [h2]
      exact lookup_updateAssoc_self _ _ _
    have hitxn_mem : mkTransaction (endOfMonth y m) acc "I"
        (interestTotal (run ops) account y m) none
        ∈ account.transactions ++ [mkTransaction (endOfMonth y m) acc "I"
            (interestTotal (run ops) account y m) none] :=
      List.mem_append_right _ (List.mem_singleton.mpr rfl)
    have hfiltnew : List.filter (fun t => decide (t.transaction_type = "I"
        ∧ t.date.year = y ∧ t.date.month = m))
        [mkTransaction (endOfMonth y m) acc "I"
          (interestTotal (run ops) account y m) none]
        = [mkTransaction (endOfMonth y m) acc "I"
            (interestTotal (run ops) account y m) none] := by
      rw [List.filter_cons, if_pos]
      · rfl
      · simp only [decide_eq_true_eq]
        exact ⟨by show strUpper "I" = "I"; decide, rfl, rfl⟩
    refine ⟨?_, ?_, ?_⟩
    · unfold interestCount
      rw [hacc, Option.getD_some, hnil]
      simp
    · exact calc_none_of_interest_exists _ acc y m _ hlook2 _ hitxn_mem
        (by show strUpper "I" = "I"; decide) rfl rfl Nat.le.refl
    · unfold interestCount
      rw [hlook2, Option.getD_some]
      unfold interestTxnsIn
      simp only [List.filter_append]
      unfold interestTxnsIn at hnil
      rw [hnil, hfiltnew]
      simp

/-- C4 witness: the first accrual returns 4.25; re-running it is a no-op
returning `None`, and exactly one Interest transaction is stored. -/
theorem claim_C4_witness :
    (calculate_interest (run c4ops) "A4" 2023 1).1 = some (425 / 100) ∧
    calculate_interest ((calculate_interest (run c4ops) "A4" 2023 1).2) "A4" 2023 1
        = (none, (calculate_interest (run c4ops) "A4" 2023 1).2) ∧
    interestCount ((calculate_interest (run c4ops) "A4" 2023 1).2) "A4" 2023 1 = 1 := by
  have h1 : (calculate_interest (run c4ops) "A4" 2023 1).1 = some (425 / 100) := by
    with_unfolding_all decide
  have h := claim_C4_interest_idempotent c4ops "A4" 2023 1 (425 / 100) h1 (by norm_num)
  exact ⟨h1, h.2.1, h.2.2⟩

/-! ## C7: rule replacement keeps the list sorted with unique dates -/
theorem filter_ne_date_length {l : List InterestRule} {d : Date}
    (hnd : (l.map (fun r => r.date)).Nodup) (hex : ∃ r ∈ l, r.date = d) :
    (l.filter (fun r => decide (r.date ≠ d))).length + 1 = l.length := by
  induction l with
  | nil => simp at hex
  | cons r l ih =>
    rw [List.map_cons, List.nodup_cons] at hnd
    obtain ⟨hrd, hnd'⟩ := hnd
    by_cases hr : r.date = d
    · rw [List.filter_cons, if_neg (by simp [hr])]
      have hall : l.filter (fun r => decide (r.date ≠ d)) = l := by
        rw [List.filter_eq_self]
        intro a ha
        simp only [decide_eq_true_eq]
        intro had
        exact hrd (List.mem_map.mpr ⟨a, ha, by rw [had, hr]⟩)
      rw [hall]
      simp
    · rw [List.filter_cons, if_pos (by simp [hr])]
      have hex' : ∃ x ∈ l, x.date = d := by
        obtain ⟨x, hx, hxd⟩ := hex
        rcases List.mem_cons.mp hx with hx | hx
        · exact absurd (hx ▸ hxd) hr
        · exact ⟨x, hx, hxd⟩
      simp only [List.length_cons]
      rw [← ih hnd' hex']

/-- C7: in every reachable state, after a successful `add_interest_rule` the
rule list is sorted ascending by effective date with pairwise-distinct dates;
every rule at the submitted date is the newly added one (same rule id and
quantized rate); a rule for that date is present; and if a rule for that date
already existed, the list length is unchanged (replacement). -/
theorem claim_C7_rule_replacement (ops : List Op) (ds rid : String) (q : ℚ) (d : Date)
    (hd : parseDate ds = some d)
    (hsucc : (add_interest_rule (run ops) ds rid (some q)).1 = .ok ()) :
    ((add_interest_rule (run ops) ds rid (some q)).2.interest_rules.Pairwise
      (fun a b => a.date.ord ≤ b.date.ord)) ∧
    (((add_interest_rule (run ops) ds rid (some q)).2.interest_rules.map
      (fun r => r.date)).Nodup) ∧
    (∀ r ∈ (add_interest_rule (run ops) ds rid (some q)).2.interest_rules,
      r.date = d → r.rule_id = rid ∧ r.rate = quantize2 q) ∧
    (∃ r ∈ (add_interest_rule (run ops) ds rid (some q)).2.interest_rules, r.date = d) ∧
    ((∃ r ∈ (run ops).interest_rules, r.date = d) →
      (add_interest_rule (run ops) ds rid (some q)).2.interest_rules.length
        = (run ops).interest_rules.length) := by
  have hinv := SysInv_run ops
  rcases add_interest_rule_state_cases (run ops) ds rid (some q) with
    ⟨hc, e, he⟩ | ⟨date, q', hp, hq, hr, hc⟩
  · rw [he] at hsucc; exact Except.noConfusion hsucc
  · have hdd : date = d := by
      rw [hp] at hd
      exact Option.some.inj hd
    subst hdd
    have hqq : q = q' := Option.some.inj hq
    subst hqq
    have hrules : (add_interest_rule (run ops) ds rid (some q)).2.interest_rules
        = sortByKey (fun r => r.date.ord)
          (((run ops).interest_rules.filter (fun r => decide (r.date ≠ date)))
            ++ [mkInterestRule date rid (quantize2 q)]) := by
      rw [hc]
    have hperm := sortByKey_perm (fun r => r.date.ord)
      (((run ops).interest_rules.filter (fun r => decide (r.date ≠ date)))
        ++ [mkInterestRule date rid (quantize2 q)])
    refine ⟨?_, ?_, ?_, ?_, ?_⟩
    · rw [hrules]
      exact sortByKey_sorted _ _
    · exact (SysInv_addRule ds rid (some q) hinv).rules_nodup
    · rw [hrules]
      intro r hrm hrd
      rcases List.mem_append.mp (hperm.mem_iff.mp hrm) with hin | hin
      · have hne := List.of_mem_filter hin
        rw [decide_eq_true_eq] at hne
        exact absurd hrd hne
      · rw [List.mem_singleton] at hin
        rw [hin]
        exact ⟨rfl, quantize2_idem q⟩
    · rw [hrules]
      refine ⟨mkInterestRule date rid (quantize2 q), ?_, rfl⟩
      exact hperm.mem_iff.mpr (List.mem_append_right _ (List.mem_singleton.mpr rfl))
    · intro hex
      rw [hrules, hperm.length_eq, List.length_append]
      simp only [List.length_singleton]
      exact filter_ne_date_length hinv.rules_nodup hex

/-- C7 witness: adding 3% then 4% for the same date 2023-02-01 on top of an
existing 5% rule for 2023-01-01 leaves two rules, sorted, with the 4% rule
(and only it) effective 2023-02-01. -/
theorem claim_C7_witness :
    (add_interest_rule (run [.rule "20230101" "R1" (some 5),
        .rule "20230201" "R2" (some 3)]) "20230201" "R3" (some 4)).1 = .ok () ∧
    (∀ r ∈ (add_interest_rule (run [.rule "20230101" "R1" (some 5),
        .rule "20230201" "R2" (some 3)]) "20230201" "R3" (some 4)).2.interest_rules,
      r.date = ⟨2023, 2, 1⟩ → r.rule_id = "R3" ∧ r.rate = quantize2 4) ∧
    (add_interest_rule (run [.rule "20230101" "R1" (some 5),
        .rule "20230201" "R2" (some 3)]) "20230201" "R3" (some 4)).2.interest_rules.length
      = (run [.rule "20230101" "R1" (some 5),
          .rule "20230201" "R2" (some 3)]).interest_rules.length := by
  have hok : (add_interest_rule (run [.rule "20230101" "R1" (some 5),
      .rule "20230201" "R2" (some 3)]) "20230201" "R3" (some 4)).1 = .ok () := by
    with_unfolding_all decide
  have h := claim_C7_rule_replacement [.rule "20230101" "R1" (some 5),
    .rule "20230201" "R2" (some 3)] "20230201" "R3" 4 ⟨2023, 2, 1⟩
    (by with_unfolding_all decide) hok
  refine ⟨hok, h.2.2.1, h.2.2.2.2 ?_⟩
  refine ⟨⟨⟨2023, 2, 1⟩, "R2", 3⟩, ?_, rfl⟩
  with_unfolding_all decide

/-! ## C8: zero totals post nothing -/
/-- C8: when the quantized month total is exactly 0, the accrual returns 0
and leaves the state (hence the account's transactions) unchanged; and in
every reachable state no stored Interest transaction has amount 0. -/
theorem claim_C8_zero_total_no_posting :
    (∀ (s : BankSystem) (acc : String) (account : BankAccount) (y m : ℕ) (v : ℚ),
      s.accounts.lookup acc = some account →
      (calculate_interest s acc y m).1 = some v →
      interestTotal s account y m = 0 →
      v = 0 ∧ (calculate_interest s acc y m).2 = s) ∧
    (∀ (ops : List Op) (acc : String), ∀ t ∈ accountTxns (run ops) acc,
      t.transaction_type = "I" → ¬ t.amount = 0) := by
  constructor
  · intro s acc account y m v hacc hres htot
    rcases calculate_interest_cases s acc y m with
      ⟨hc2, hc1⟩ | ⟨account', hacc', hpos, _, hc⟩
    · refine ⟨?_, hc2⟩
      rcases hc1 with hnone | hzero
      · rw [hres] at hnone; exact Option.noConfusion hnone
      · rw [hres] at hzero; exact Option.some.inj hzero
    · exfalso
      have haa : account' = account := by
        rw [hacc] at hacc'
        exact (Option.some.inj hacc').symm
      rw [haa, htot] at hpos
      exact lt_irrefl 0 hpos
  · intro ops acc t ht hI h0
    have hinv := SysInv_run ops
    unfold accountTxns at ht
    cases hacc : (run ops).accounts.lookup acc with
    | none => rw [hacc] at ht; simp at ht
    | some account =>
      rw [hacc, Option.getD_some] at ht
      have hpos := hinv.interest_pos _ (mem_of_lookup_eq_some hacc) t ht hI
      rw [h0] at hpos
      exact lt_irrefl 0 hpos

/-- C8 witness: with an equal same-day deposit and withdrawal, the June 2023
accrual returns exactly 0 and leaves the state unchanged. -/
theorem claim_C8_witness :
    (calculate_interest (run c8ops) "A8" 2023 6).1 = some 0 ∧
    (calculate_interest (run c8ops) "A8" 2023 6).2 = run c8ops := by
  have h1 : (calculate_interest (run c8ops) "A8" 2023 6).1 = some 0 := by
    with_unfolding_all decide
  refine ⟨h1, (claim_C8_zero_total_no_posting.1 (run c8ops) "A8"
    ⟨"A8", [⟨⟨2023, 6, 5⟩, "A8", "D", 500, some "20230605-01"⟩,
            ⟨⟨2023, 6, 5⟩, "A8", "W", 500, some "20230605-02"⟩]⟩ 2023 6 0
    (by with_unfolding_all decide) h1 (by with_unfolding_all decide)).2⟩
